import Mathlib

/-!
Shallow embedding of the swiz validation/serialization engine
(`src/node_modules/swiz/lib/valve.js`, `lib/serializer.js`, plus the
`util.js` / `validators.js` helpers) in Lean 4.

JavaScript values are modelled by the inductive `JVal`.  JS objects are
modelled as insertion-ordered association lists with distinct keys
(`JObj`); JS reference identity is not representable in a value model, so
strict equality (`jsStrictEq`) treats two container values as distinct
references, matching the engine's documented restriction of immutability
checks to primitive values.  Asynchronous callback chains in the source
are sequential in effect (every callback is invoked synchronously), so
they are modelled by `Except`-valued functions; a validation error
delivered through the callback channel is an `Except.error`, while a
configuration error thrown synchronously is an `Except.error` of the
chain-building function itself.
-/

/-- A JavaScript value: `null`, `undefined`, booleans, (integer) numbers,
strings, arrays and plain objects.  Numbers are restricted to integers,
which covers every numeric value the validation engine manipulates. -/
inductive JVal where
  | null
  | undef
  | bool (b : Bool)
  | num (n : Int)
  | str (s : String)
  | arr (elems : List JVal)
  | obj (fields : List (String × JVal))

/-- A JavaScript object: insertion-ordered key/value pairs. -/
abbrev JObj := List (String × JVal)

/-- The util.js `typeOf` helper: like `typeof` but distinguishing
`array` and `null`. -/
def typeOf : JVal → String
  | .null => "null"
  | .undef => "undefined"
  | .bool _ => "boolean"
  | .num _ => "number"
  | .str _ => "string"
  | .arr _ => "array"
  | .obj _ => "object"

/-- One decimal digit character. -/
def decDigitChar : Nat → Char
  | 0 => '0' | 1 => '1' | 2 => '2' | 3 => '3' | 4 => '4'
  | 5 => '5' | 6 => '6' | 7 => '7' | 8 => '8' | _ => '9'

/-- Decimal digits of a natural number, most significant first.  The
fuel only bounds the recursion depth; `n + 1` units always suffice since
the argument strictly shrinks on every division by ten. -/
def natToDigitsGo : Nat → Nat → List Char → List Char
  | 0, _, acc => acc
  | fuel + 1, n, acc =>
    if n < 10 then decDigitChar (n % 10) :: acc
    else natToDigitsGo fuel (n / 10) (decDigitChar (n % 10) :: acc)

def natToDigits (n : Nat) : List Char := natToDigitsGo (n + 1) n []

def natToString (n : Nat) : String := String.mk (natToDigits n)

/-- Decimal rendering of an integer (the JS `Number.prototype.toString`
behaviour on integral values). -/
def intToString (i : Int) : String :=
  if i < 0 then String.mk ('-' :: natToDigits i.natAbs) else natToString i.natAbs

mutual

/-- The JS `String(value)` / `value.toString()` coercion, for the value
shapes the engine feeds to it.  Array elements that are `null` or
`undefined` stringify to the empty string inside the comma join, per
`Array.prototype.toString`. -/
def jsToString : JVal → String
  | .null => "null"
  | .undef => "undefined"
  | .bool true => "true"
  | .bool false => "false"
  | .num n => intToString n
  | .str s => s
  | .arr elems => jsToStringList elems
  | .obj _ => "[object Object]"

def jsToStringList : List JVal → String
  | [] => ""
  | x :: rest =>
    (match x with
     | .null => ""
     | .undef => ""
     | v => jsToString v) ++
    (match rest with
     | [] => ""
     | r => "," ++ jsToStringList r)

end

/-- JS strict equality `===` on the value model.  Primitive values compare
structurally (exactly as `===` does); two container values are treated as
distinct object references, which is how separately constructed arrays
and objects compare under `===`. -/
def jsStrictEq : JVal → JVal → Bool
  | .null, .null => true
  | .undef, .undef => true
  | .bool a, .bool b => a == b
  | .num a, .num b => a == b
  | .str a, .str b => a == b
  | _, _ => false

/-- Property read `o[k]`: the bound value, or `undefined` when absent. -/
def objGet (o : JObj) (k : String) : JVal :=
  match o.find? (fun kv => kv.1 == k) with
  | some kv => kv.2
  | none => JVal.undef

/-- The `hasOwnProperty` test. -/
def objHas (o : JObj) (k : String) : Bool :=
  o.any (fun kv => kv.1 == k)

/-- Property write `o[k] = v`: overwrite in place when the key exists,
append otherwise (JS insertion-order semantics). -/
def objSet (o : JObj) (k : String) (v : JVal) : JObj :=
  if o.any (fun kv => kv.1 == k) then
    o.map (fun kv => if kv.1 == k then (k, v) else kv)
  else o ++ [(k, v)]

/-- Own enumerable properties of an arbitrary value: the fields of an
object, nothing for any other shape (primitives have no own keys). -/
def jvalProps : JVal → JObj
  | .obj kvs => kvs
  | _ => []

/-- One validator step of a chain: `{name, func, help}` plus the position
stamped by `_pushValidator` / `_unshiftValidator`.  The function receives
the owning chain's `_numItemsValidator` constraint first, modelling the
`self._validateNumItems` reference that the `isArray` / `isHash` closures
read from the chain at invocation time, then the value and the baton. -/
structure Validator where
  name : String
  func : Option (Int × Option Int) → JVal → JVal → Except String JVal
  help : Option String
  pos : Nat := 0

/-- The validator chain object (`Chain` in valve.js). -/
structure Chain where
  validators : List Validator := []
  target : Option String := none
  isOptional : Bool := false
  isImmutable : Bool := false
  isUpdateRequired : Bool := false
  validatorCount : Nat := 0
  numItemsValidator : Option (Int × Option Int) := none

/-- The `Chain()` constructor. -/
def Chain.new : Chain := {}

/-- Return the stamped position of the first validator in the chain whose
name matches, `-1` otherwise (`Chain.prototype.getValidatorPos`). -/
def Chain.getValidatorPos (c : Chain) (name : String) : Int :=
  match c.validators.find? (fun v => v.name == name) with
  | some v => Int.ofNat v.pos
  | none => -1

/-- `Chain.prototype.hasValidator`. -/
def Chain.hasValidator (c : Chain) (name : String) : Bool :=
  c.getValidatorPos name >= 0

/-- `Chain.prototype.getValidatorAtPos`. -/
def Chain.getValidatorAtPos (c : Chain) (pos : Nat) : Option Validator :=
  c.validators.find? (fun v => v.pos == pos)

/-- Append a validator at the end of the array, stamping it with the
current counter (`Chain.prototype._pushValidator`). -/
def Chain.pushValidator (c : Chain) (v : Validator) : Chain :=
  { c with
    validators := c.validators ++ [{ v with pos := c.validatorCount }]
    validatorCount := c.validatorCount + 1 }

/-- Insert a validator at the beginning of the array, stamping it with the
current counter (`Chain.prototype._unshiftValidator`). -/
def Chain.unshiftValidator (c : Chain) (v : Validator) : Chain :=
  { c with
    validators := { v with pos := c.validatorCount } :: c.validators
    validatorCount := c.validatorCount + 1 }

/-- Run a value through every validator of a chain in order, threading the
converted value and the baton; the first failing step aborts the chain
with its error message (`checkChain` in valve.js; the `async.reduce` there
is a sequential left fold). -/
def checkChain (value : JVal) (chain : Chain) (baton : JVal) : Except String JVal :=
  chain.validators.foldlM (fun memo v => v.func chain.numItemsValidator memo baton) value

/-- Documentation strings of a chain: the non-null `help` entries
(`chainHelp` in valve.js). -/
def chainHelp (chain : Chain) : List String :=
  chain.validators.filterMap (fun v => v.help)

/-- Mark the chain optional and unshift the no-op `optional` marker step
(`Chain.prototype.optional`). -/
def Chain.optional (c : Chain) : Chain :=
  { c with isOptional := true }.unshiftValidator
    { name := "optional", func := fun _ value _ => .ok value, help := some "Optional" }

/-- Mark the chain immutable and unshift the no-op `immutable` marker step
(`Chain.prototype.immutable`). -/
def Chain.immutable (c : Chain) : Chain :=
  { c with isImmutable := true }.unshiftValidator
    { name := "immutable", func := fun _ value _ => .ok value, help := some "Immutable" }

/-- Mark the chain update-required and unshift the no-op `updateRequired`
marker step (`Chain.prototype.updateRequired`). -/
def Chain.updateRequired (c : Chain) : Chain :=
  { c with isUpdateRequired := true }.unshiftValidator
    { name := "updateRequired", func := fun _ value _ => .ok value,
      help := some "Required for update" }

/-- Record the rename target (`Chain.prototype.rename`). -/
def Chain.rename (c : Chain) (target : String) : Chain :=
  { c with target := some target }

/-- The `isString` step function. -/
def isStringFunc (_ : Option (Int × Option Int)) (value _baton : JVal) : Except String JVal :=
  if typeOf value != "string" then .error "Not a string" else .ok value

/-- `Chain.prototype.isString`. -/
def Chain.isString (c : Chain) : Chain :=
  c.pushValidator { name := "isString", func := isStringFunc, help := some "String" }

/-- Full-string match of the case-insensitive regex `^0$|^false$`. -/
def matchesFalseRegex (s : String) : Bool :=
  s == "0" || s.data.map Char.toLower == "false".data

/-- Full-string match of the case-insensitive regex `^1$|^true$`. -/
def matchesTrueRegex (s : String) : Bool :=
  s == "1" || s.data.map Char.toLower == "true".data

/-- The `isBoolean` step function: rejects `null`/`undefined`, converts a
value whose string form matches `^0$|^false$`(i) to the boolean `false`
and one matching `^1$|^true$`(i) to the boolean `true`, and rejects
everything else. -/
def isBooleanFunc (_ : Option (Int × Option Int)) (value _baton : JVal) : Except String JVal :=
  match value with
  | .null => .error "Not a boolean"
  | .undef => .error "Not a boolean"
  | v =>
    if matchesFalseRegex (jsToString v) then .ok (.bool false)
    else if matchesTrueRegex (jsToString v) then .ok (.bool true)
    else .error "Not a boolean"

/-- `Chain.prototype.isBoolean`. -/
def Chain.isBoolean (c : Chain) : Chain :=
  c.pushValidator { name := "isBoolean", func := isBooleanFunc, help := some "Boolean" }

/-- The `enumerated` step function over the enumeration map: a value whose
string form is a key of the map is replaced by the mapped value, anything
else fails listing the valid keys. -/
def enumeratedFunc (map : List (String × JVal)) (_ : Option (Int × Option Int))
    (value _baton : JVal) : Except String JVal :=
  match map.find? (fun kv => kv.1 == jsToString value) with
  | some kv => .ok kv.2
  | none => .error ("Invalid value \x27" ++ jsToString value ++ "\x27. Should be one of (" ++
      String.intercalate ", " (map.map (fun kv => kv.1)) ++ ").")

/-- `Chain.prototype.enumerated`. -/
def Chain.enumerated (c : Chain) (map : List (String × JVal)) : Chain :=
  c.pushValidator
    { name := "enumerated", func := enumeratedFunc map,
      help := some ("One of (" ++ String.intercalate ", " (map.map (fun kv => kv.1)) ++ ")") }

/-- The message of a failed validators.js `numItems` check (`max = none`
prints as the stored `Infinity`). -/
def numItemsMsg (min : Int) (max : Option Int) : String :=
  "Object needs to have between " ++ intToString min ++ " and " ++
  (match max with | none => "Infinity" | some m => intToString m) ++ " items"

/-- The validators.js `numItems` helper: count the elements of an array or
the keys of an object and enforce the inclusive bounds (`max = none`
stands for the stored `Infinity`). -/
def numItemsHelper (value : JVal) (min : Int) (max : Option Int) : Except String JVal :=
  let lenOpt : Option Int :=
    match value with
    | .arr elems => some (Int.ofNat elems.length)
    | .obj kvs => some (Int.ofNat kvs.length)
    | _ => none
  match lenOpt with
  | none => .error "value must either be a array or an object"
  | some len =>
    let maxStr := match max with | none => "Infinity" | some m => intToString m
    if len < min || (match max with | none => false | some m => len > m) then
      .error ("Object needs to have between " ++ intToString min ++ " and " ++
        maxStr ++ " items")
    else .ok value

/-- `Chain.prototype._validateNumItems`: no-op without a stored
constraint, otherwise the validators.js `numItems` check. -/
def validateNumItems (ni : Option (Int × Option Int)) (value : JVal) : Except String JVal :=
  match ni with
  | none => .ok value
  | some c => numItemsHelper value c.1 c.2

/-- `Chain.prototype.numItems`: a falsy (absent or zero) `max` means
unbounded.  Called a second time on the same chain, it throws
synchronously; the thrown configuration error is the `Except.error` of
this chain-building function, as opposed to a validation error delivered
through a step's callback.  The step it pushes does nothing by itself. -/
def Chain.numItems (c : Chain) (min : Int) (max : Option Int) : Except String Chain :=
  let maxFalsy := match max with | none => true | some m => m == 0
  let help := if maxFalsy then
      "Array or objects with at least " ++ intToString min ++ " items"
    else
      "Array or object with number of items between " ++ intToString min ++ " and " ++
        intToString (match max with | some m => m | none => 0)
  let eff : Option Int := if maxFalsy then none else max
  if c.numItemsValidator.isSome then
    .error "Chain can only have a single numItems validator"
  else
    .ok (({ c with numItemsValidator := some (min, eff) }).pushValidator
      { name := "numItems", func := fun _ value _ => .ok value, help := some help })

/-- The `isArray(chain)` step function: reject non-arrays, enforce the
owning chain's `numItems` constraint on the container, then run the inner
chain over every element in order (`async.map` keeps index order and
stops at the first failing element). -/
def isArrayFunc (chain : Chain) (ni : Option (Int × Option Int))
    (value baton : JVal) : Except String JVal :=
  match value with
  | .arr elems =>
    match validateNumItems ni value with
    | .error e => .error e
    | .ok _ => (elems.mapM (fun item => checkChain item chain baton)).map JVal.arr
  | _ => .error "Not an array"

/-- `Chain.prototype.isArray`. -/
def Chain.isArray (c : Chain) (chain : Chain) : Chain :=
  c.pushValidator
    { name := "isArray", func := isArrayFunc chain,
      help := some ("Array [" ++ String.intercalate "," (chainHelp chain) ++ "]") }

/-- The per-pair iterator of `isHash`: check the key against the key
chain, then the value against the value chain, prefixing failures with
the offending key; a cleaned pair is written into the accumulator. -/
def isHashIter (keyChain valueChain : Chain) (baton : JVal) (memo : JObj)
    (item : String × JVal) : Except String JObj :=
  match checkChain (.str item.1) keyChain baton with
  | .error e => .error ("Key " ++ item.1 ++ ": " ++ e)
  | .ok cleanedKey =>
    match checkChain item.2 valueChain baton with
    | .error e => .error ("Value for key \x27" ++ item.1 ++ "\x27: " ++ e)
    | .ok cleanedValue => .ok (objSet memo (jsToString cleanedKey) cleanedValue)

/-- The `isHash(keyChain, valueChain)` step function. -/
def isHashFunc (keyChain valueChain : Chain) (ni : Option (Int × Option Int))
    (value baton : JVal) : Except String JVal :=
  match value with
  | .obj kvs =>
    match validateNumItems ni value with
    | .error e => .error e
    | .ok _ => (kvs.foldlM (isHashIter keyChain valueChain baton) []).map JVal.obj
  | _ => .error "Not a hash"

/-- `Chain.prototype.isHash`. -/
def Chain.isHash (c : Chain) (keyChain valueChain : Chain) : Chain :=
  c.pushValidator
    { name := "isHash", func := isHashFunc keyChain valueChain,
      help := some ("Hash [" ++ String.intercalate "," (chainHelp keyChain) ++ ":" ++
        String.intercalate "," (chainHelp valueChain) ++ "]") }

/-- `Chain.prototype.custom`: look the name up in the custom-validator
registry (the valve.js module-level `customValidators` object, passed here
explicitly); an unregistered name is a configuration error thrown
synchronously, modelled as the `Except.error` of this chain-building
function. -/
def Chain.custom (customValidators : List (String × Validator)) (c : Chain)
    (name : String) : Except String Chain :=
  match customValidators.find? (fun kv => kv.1 == name) with
  | some kv => .ok (c.pushValidator kv.2)
  | none => .error ("Unknown validator name \x27" ++ name ++ "\x27")

/-- Modelled from the spec: the external node-validator library backing
`Chain.prototype.isInt` is not part of this repository; per the spec it
accepts numeric-looking strings or numbers (an optional minus sign and a
canonical run of digits) and rejects everything else with the fixed
message "Invalid integer". -/
def isIntStringCore : List Char → Bool
  | [] => false
  | [c] => c.isDigit
  | c :: rest => c.isDigit && c != '0' && rest.all Char.isDigit

def isIntFunc (_ : Option (Int × Option Int)) (value _baton : JVal) : Except String JVal :=
  let s := (jsToString value).data
  let core := match s with | '-' :: rest => rest | other => other
  if isIntStringCore core then .ok value else .error "Invalid integer"

/-- `Chain.prototype.isInt` (step function modelled from the spec, see
`isIntFunc`). -/
def Chain.isInt (c : Chain) : Chain :=
  c.pushValidator { name := "isInt", func := isIntFunc, help := some "Integer" }

/-- The `notEmpty` step function, modelled from the spec: the external
node-validator `notEmpty` check fails on strings that are empty or
whitespace-only (and on non-strings it checks their string form). -/
def notEmptyFunc (_ : Option (Int × Option Int)) (value _baton : JVal) : Except String JVal :=
  if ((jsToString value).data.all (fun c => c == ' ' || c == '\t' || c == '\n' || c == '\r')) then
    .error "String is empty"
  else .ok value

/-- `Chain.prototype.notEmpty` (step function modelled from the spec). -/
def Chain.notEmpty (c : Chain) : Chain :=
  c.pushValidator { name := "notEmpty", func := notEmptyFunc, help := some "Non-empty string" }

/-- A Valve schema entry: either a validator chain or a nested
sub-schema. -/
inductive SchemaEntry where
  | chain (c : Chain)
  | sub (s : List (String × SchemaEntry))

/-- A Valve schema: field name to chain or sub-schema, in declaration
order. -/
abbrev Schema := List (String × SchemaEntry)

/-- Reading `chain.isOptional` off a schema value: a nested sub-schema (a
plain object) has no such property, which is falsy. -/
def entryIsOptional : SchemaEntry → Bool
  | .chain c => c.isOptional
  | .sub _ => false

/-- Reading `chain.isImmutable` off a schema value (falsy on a
sub-schema). -/
def entryIsImmutable : SchemaEntry → Bool
  | .chain c => c.isImmutable
  | .sub _ => false

/-- Reading `chain.isUpdateRequired` off a schema value (falsy on a
sub-schema). -/
def entryIsUpdateRequired : SchemaEntry → Bool
  | .chain c => c.isUpdateRequired
  | .sub _ => false

/-- Reading `chain.target` off a schema value (undefined on a
sub-schema). -/
def entryTarget : SchemaEntry → Option String
  | .chain c => c.target
  | .sub _ => none

/-- The truthiness fallback `chain.target || key` used by `checkUpdate`:
an absent or empty-string target falls back to the key. -/
def entryTargetOr (e : SchemaEntry) (key : String) : String :=
  match entryTarget e with
  | some t => if t.isEmpty then key else t
  | none => key

/-- Schema lookup `schema[key]`. -/
def schemaGet (schema : Schema) (key : String) : Option SchemaEntry :=
  match schema.find? (fun kv => kv.1 == key) with
  | some kv => some kv.2
  | none => none

/-- The `hasOwnProperty` test on a schema. -/
def schemaHas (schema : Schema) (key : String) : Bool :=
  schema.any (fun kv => kv.1 == key)

/-- A structured validation error as delivered through the callback
channel of `check`, `checkPartial` and `checkUpdate`: either the bare
string "no schema specified", a field error record `{key, parentKeys,
message}`, or the strict-mode record `{key, message}` (which carries no
parent keys). -/
inductive CheckError where
  | simple (msg : String)
  | record (key : String) (parentKeys : List String) (message : String)
  | strictKey (key : String) (message : String)

mutual

/-- The body of the `async.reduce` inside `checkSchema`: process one
schema field.  The state is the accumulated cleaned object together with
the `parentKeys` array, which the source mutates in place (a sub-schema
recursion pushes its key and never pops it, so the grown array is
threaded on to the remaining fields). -/
def checkSchemaField (obj : JObj) (key : String) (entry : SchemaEntry)
    (cleaned : JObj) (parentKeys : List String) (partMode : Bool) (baton : JVal) :
    Except CheckError (JObj × List String) :=
  if entryIsOptional entry && jsStrictEq (objGet obj key) .null then
    .ok (objSet cleaned key .null, parentKeys)
  else if objHas obj key then
    match entry with
    | .chain c =>
      match checkChain (objGet obj key) c baton with
      | .error e => .error (.record key parentKeys e)
      | .ok cleanedValue =>
        let outKey := match c.target with | some t => t | none => key
        .ok (objSet cleaned outKey cleanedValue, parentKeys)
    | .sub s =>
      match checkSchemaList (jvalProps (objGet obj key)) s [] (parentKeys ++ [key])
          partMode baton with
      | .error e => .error e
      | .ok (cleanedValue, parentKeysMutated) =>
        .ok (objSet cleaned key (.obj cleanedValue), parentKeysMutated)
  else if (partMode && !(entryIsUpdateRequired entry)) || entryIsOptional entry then
    .ok (cleaned, parentKeys)
  else
    .error (.record key parentKeys ("Missing required key (" ++ key ++ ")"))

/-- Sequential reduction of `checkSchemaField` over the schema fields in
declaration order, stopping at the first error (the `async.reduce` of
`checkSchema`). -/
def checkSchemaList (obj : JObj) (entries : List (String × SchemaEntry))
    (cleaned : JObj) (parentKeys : List String) (partMode : Bool) (baton : JVal) :
    Except CheckError (JObj × List String) :=
  match entries with
  | [] => .ok (cleaned, parentKeys)
  | (key, entry) :: rest =>
    match checkSchemaField obj key entry cleaned parentKeys partMode baton with
    | .error e => .error e
    | .ok (cleanedNext, parentKeysNext) =>
      checkSchemaList obj rest cleanedNext parentKeysNext partMode baton

end

/-- The valve.js `checkSchema`: test/convert an object against a schema
(the accumulator starts empty); `partMode` is the `isPartial` flag of the
source. -/
def checkSchema (obj : JObj) (schema : Schema) (parentKeys : List String)
    (partMode : Bool) (baton : JVal) : Except CheckError (JObj × List String) :=
  checkSchemaList obj schema [] parentKeys partMode baton

/-- The Valve object: a schema, the opaque baton, and the optional final
whole-object validator registered by `addFinalValidator`. -/
structure Valve where
  schema : Option Schema
  baton : JVal := .null
  finalValidator : Option (JObj → Except CheckError JObj) := none

/-- Options accepted by `Valve.prototype.check`. -/
structure CheckOptions where
  strict : Bool := false

/-- `Valve.prototype.check`: without a schema fail with the bare string;
with `options.strict`, scan the input for the first own key absent from
the schema and fail identifying it before any field chain runs; otherwise
run `checkSchema` non-partially and then the final validator, if any. -/
def Valve.check (v : Valve) (obj : JObj) (options : CheckOptions) :
    Except CheckError JObj :=
  match v.schema with
  | none => .error (.simple "no schema specified")
  | some schema =>
    match (if options.strict then obj.find? (fun kv => !(schemaHas schema kv.1)) else none) with
    | some kv => .error (.strictKey kv.1 "This key is not allowed")
    | none =>
      match checkSchema obj schema [] false v.baton with
      | .error e => .error e
      | .ok (cleaned, _) =>
        match v.finalValidator with
        | some f => f cleaned
        | none => .ok cleaned

/-- `Valve.prototype.checkPartial`: like `check` but with the partial
flag set; missing non-update-required keys are tolerated and no final
validator runs. -/
def Valve.checkPart (v : Valve) (obj : JObj) : Except CheckError JObj :=
  match v.schema with
  | none => .error (.simple "no schema specified")
  | some schema =>
    match checkSchema obj schema [] true v.baton with
    | .error e => .error e
    | .ok (cleaned, _) => .ok cleaned

/-- The immutability scan of `checkUpdate`, for one own key of the
partial object: the key has a schema entry marked immutable and the
proposed value differs (under `===`) from the existing object's value at
the chain's rename target (`chain.target || key`). -/
def immutableViolation (schema : Schema) (existing : JObj) (kv : String × JVal) : Bool :=
  match schemaGet schema kv.1 with
  | none => false
  | some e => entryIsImmutable e && !(jsStrictEq (objGet existing (entryTargetOr e kv.1)) kv.2)

/-- `Valve.prototype.checkUpdate`: reject the first immutable-field
mutation found in the partial object; otherwise merge every schema key,
preferring the partial object's value and falling back to the existing
object's value at the rename target, and run the final validator (if
any) over the merged object.  The existing object is only read. -/
def Valve.checkUpdate (v : Valve) (existing obj : JObj) : Except CheckError JObj :=
  match v.schema with
  | none => .error (.simple "no schema specified")
  | some schema =>
    match obj.find? (immutableViolation schema existing) with
    | some kv => .error (.record kv.1 [] "Attempted to mutate immutable field")
    | none =>
      let cleaned : JObj := schema.map (fun kv =>
        (kv.1, if objHas obj kv.1 then objGet obj kv.1
               else objGet existing (entryTargetOr kv.2 kv.1)))
      match v.finalValidator with
      | some f => f cleaned
      | none => .ok cleaned

/-- Update an association list under JS property-assignment semantics:
overwrite in place when the key exists, append otherwise. -/
def listSet {α : Type} (l : List (String × α)) (k : String) (v : α) :
    List (String × α) :=
  if l.any (fun kv => kv.1 == k) then
    l.map (fun kv => if kv.1 == k then (k, v) else kv)
  else l ++ [(k, v)]

/-- A swiz-style field definition, restricted to the properties
`defToValve` reads. -/
structure FieldDef where
  name : String
  val : Option Chain := none
  enumerated : Option (List (String × JVal)) := none
  src : Option String := none
  ignorePublic : Bool := false

/-- A swiz-style object definition. -/
structure ObjDef where
  name : String
  fields : List FieldDef

/-- The chain `defToValve` stores for one field: the declared chain or a
fresh pass-through `Chain()`, then the enum step if `enumerated` is
declared, then the rename target if a truthy `src` is declared. -/
def defToValveField (f : FieldDef) : Chain :=
  let c := match f.val with | some ch => ch | none => Chain.new
  let c := match f.enumerated with | some m => c.enumerated m | none => c
  match f.src with
  | some s => if s.isEmpty then c else c.rename s
  | none => c

/-- `defToValve`: translate a list of swiz object definitions into a map
from group name to a valve schema of chains, skipping `ignorePublic`
fields. -/
def defToValve (defs : List ObjDef) : List (String × List (String × Chain)) :=
  defs.foldl (fun validity o =>
    listSet validity o.name
      (o.fields.foldl (fun group f =>
        if f.ignorePublic then group
        else listSet group f.name (defToValveField f)) [])) []

/-- The serializer options read by `jsonTransform` (`Swiz._options`). -/
structure SwizOpts where
  stripNulls : Bool := false
  stripSerializerType : Bool := false

/-- The serializer.js `jsonTransform(options)` replacer: map a
`null`/`undefined` value to `undefined` when nulls are stripped, map the
value under the key `serializerType` to `undefined` when type tags are
stripped, return the value unchanged otherwise. -/
def jsonTransform (opts : SwizOpts) (key : String) (value : JVal) : JVal :=
  if opts.stripNulls && (jsStrictEq value .null || jsStrictEq value .undef) then .undef
  else if opts.stripSerializerType && key == "serializerType" then .undef
  else value

/-- Whether the replacer prunes this key/value pair (returns
`undefined`). -/
def jsonPruned (opts : SwizOpts) (key : String) (value : JVal) : Bool :=
  (opts.stripNulls && (jsStrictEq value .null || jsStrictEq value .undef)) ||
  (opts.stripSerializerType && key == "serializerType")

/-- Lower-case hexadecimal digit. -/
def hexDigitChar : Nat → Char
  | 0 => '0' | 1 => '1' | 2 => '2' | 3 => '3' | 4 => '4'
  | 5 => '5' | 6 => '6' | 7 => '7' | 8 => '8' | 9 => '9'
  | 10 => 'a' | 11 => 'b' | 12 => 'c' | 13 => 'd' | 14 => 'e' | _ => 'f'

/-- Four lower-case hexadecimal digits, most significant first (the
`\u....` escape body emitted by `JSON.stringify`). -/
def hex4 (n : Nat) : List Char :=
  [hexDigitChar (n / 4096 % 16), hexDigitChar (n / 256 % 16),
   hexDigitChar (n / 16 % 16), hexDigitChar (n % 16)]

/-- Per-character escaping of `QuoteJSONString`: quote and backslash get
two-character escapes, the named control characters get their short
escapes, any other control character below U+0020 gets a
`\u....` escape, and everything else passes through. -/
def escapeChar (c : Char) : List Char :=
  if c = '"' then ['\\', '"']
  else if c = '\\' then ['\\', '\\']
  else if c.toNat = 8 then ['\\', 'b']
  else if c = '\t' then ['\\', 't']
  else if c = '\n' then ['\\', 'n']
  else if c.toNat = 12 then ['\\', 'f']
  else if c = '\r' then ['\\', 'r']
  else if c.toNat < 32 then '\\' :: 'u' :: hex4 c.toNat
  else [c]

/-- The `QuoteJSONString` operation of `JSON.stringify`. -/
def quoteChars (s : String) : List Char :=
  '"' :: (s.data.map escapeChar).flatten ++ ['"']

/-- The pretty-printing gap of `JSON.stringify(obj, replacer, 4)`. -/
def jsonGap : List Char := [' ', ' ', ' ', ' ']

/-- Join rendered members with the separator `",\n" ++ indent` used by
`JSON.stringify` when a gap is configured. -/
def joinParts (indentNext : List Char) : List (List Char) → List Char
  | [] => []
  | [p] => p
  | p :: rest => p ++ ',' :: '\n' :: indentNext ++ joinParts indentNext rest

mutual

/-- ECMA `SerializeJSONProperty` for the call
`JSON.stringify(obj, jsonTransform(options), 4)` in
`Swiz.prototype.serializeJson`: apply the replacer, return no text for an
`undefined` result, otherwise render the value.  With the gap of four
spaces, a non-empty array or object opens its bracket, indents each
member on its own line, and closes at the enclosing indentation; a
pruned array element renders as the literal `null`, a pruned object
member is skipped. -/
def serializeProperty (opts : SwizOpts) (indent : List Char) (key : String)
    (v : JVal) : Option (List Char) :=
  if jsonPruned opts key v then none
  else
    match v with
    | .undef => none
    | .null => some ("null".data)
    | .bool true => some ("true".data)
    | .bool false => some ("false".data)
    | .num n => some (intToString n).data
    | .str s => some (quoteChars s)
    | .arr elems =>
      let indentNext := indent ++ jsonGap
      let parts := serializeArrElems opts indentNext 0 elems
      some (if parts.isEmpty then "[]".data
        else '[' :: '\n' :: indentNext ++ joinParts indentNext parts ++
          '\n' :: indent ++ [']'])
    | .obj kvs =>
      let indentNext := indent ++ jsonGap
      let parts := serializeObjMembers opts indentNext kvs
      some (if parts.isEmpty then "\x7b\x7d".data
        else '\x7b' :: '\n' :: indentNext ++ joinParts indentNext parts ++
          '\n' :: indent ++ ['\x7d'])

def serializeArrElems (opts : SwizOpts) (indentNext : List Char) (i : Nat) :
    List JVal → List (List Char)
  | [] => []
  | x :: rest =>
    (match serializeProperty opts indentNext (natToString i) x with
     | none => "null".data
     | some s => s) :: serializeArrElems opts indentNext (i + 1) rest

def serializeObjMembers (opts : SwizOpts) (indentNext : List Char) :
    List (String × JVal) → List (List Char)
  | [] => []
  | (k, x) :: rest =>
    match serializeProperty opts indentNext k x with
    | none => serializeObjMembers opts indentNext rest
    | some s => (quoteChars k ++ ':' :: ' ' :: s) :: serializeObjMembers opts indentNext rest

end

/-- `Swiz.prototype.serializeJson`:
`JSON.stringify(obj, jsonTransform(this._options), 4)`.  The result is
`none` exactly when `stringify` returns `undefined` (the root itself was
pruned), in which case no JSON text is produced at all. -/
def Swiz.serializeJson (opts : SwizOpts) (obj : JVal) : Option String :=
  (serializeProperty opts [] "" obj).map (fun cs => String.mk cs)

/-- JSON whitespace. -/
def isJsonWs (c : Char) : Bool :=
  c == ' ' || c == '\t' || c == '\n' || c == '\r'

def skipWs : List Char → List Char
  | [] => []
  | c :: rest => if isJsonWs c then skipWs rest else c :: rest

/-- Value of one hexadecimal digit. -/
def hexVal (c : Char) : Option Nat :=
  if 48 <= c.toNat && c.toNat <= 57 then some (c.toNat - 48)
  else if 97 <= c.toNat && c.toNat <= 102 then some (c.toNat - 87)
  else if 65 <= c.toNat && c.toNat <= 70 then some (c.toNat - 55)
  else none

/-- String-literal body parser (after the opening quote): unescape until
the closing quote.  Surrogate escape values are rejected: Lean strings
hold Unicode scalar values, while JS strings are UTF-16; the printer
never emits surrogates, so this difference is outside the model. -/
def parseStringBody (acc : List Char) : List Char → Option (String × List Char)
  | [] => none
  | c :: rest =>
    if c = '"' then some (String.mk acc.reverse, rest)
    else if c = '\\' then
      match rest with
      | '"' :: r => parseStringBody ('"' :: acc) r
      | '\\' :: r => parseStringBody ('\\' :: acc) r
      | '/' :: r => parseStringBody ('/' :: acc) r
      | 'b' :: r => parseStringBody (Char.ofNat 8 :: acc) r
      | 'f' :: r => parseStringBody (Char.ofNat 12 :: acc) r
      | 'n' :: r => parseStringBody ('\n' :: acc) r
      | 'r' :: r => parseStringBody ('\r' :: acc) r
      | 't' :: r => parseStringBody ('\t' :: acc) r
      | 'u' :: h1 :: h2 :: h3 :: h4 :: r =>
        (match hexVal h1, hexVal h2, hexVal h3, hexVal h4 with
         | some a, some b, some c2, some d =>
           let n := a * 4096 + b * 256 + c2 * 16 + d
           if n < 55296 || 57343 < n then parseStringBody (Char.ofNat n :: acc) r
           else none
         | _, _, _, _ => none)
      | _ => none
    else if c.toNat < 32 then none
    else parseStringBody (c :: acc) rest

/-- Accumulating decimal-digit parser. -/
def parseDigits (acc : Nat) : List Char → Nat × List Char
  | [] => (acc, [])
  | c :: rest =>
    if c.isDigit then parseDigits (acc * 10 + (c.toNat - 48)) rest
    else (acc, c :: rest)

/-- Parse one unsigned integer token: a run of digits not followed by a
fraction or exponent marker (floats are outside the integral value
model, so they fail the parse). -/
def parseNumCore (cs : List Char) : Option (Nat × List Char) :=
  match parseDigits 0 cs with
  | (n, r) =>
    match r with
    | '.' :: _ => none
    | 'e' :: _ => none
    | 'E' :: _ => none
    | _ => some (n, r)

mutual

/-- A JSON value parser (the `JSON.parse` builtin used by
`Swiz.prototype.deserialize` in JSON mode), restricted to the integral
numbers of the value model.  The fuel bounds recursion depth; one unit
per nested value always suffices. -/
def parseJVal : Nat → List Char → Option (JVal × List Char)
  | 0, _ => none
  | fuel + 1, cs =>
    match skipWs cs with
    | [] => none
    | c :: rest =>
      if c.isDigit then
        match parseNumCore (c :: rest) with
        | some (m, r) => some (.num (Int.ofNat m), r)
        | none => none
      else if c = '-' then
        (match rest with
         | c2 :: _ =>
           if c2.isDigit then
             match parseNumCore rest with
             | some (m, r) => some (.num (-(Int.ofNat m)), r)
             | none => none
           else none
         | [] => none)
      else
        match c :: rest with
        | 'n' :: 'u' :: 'l' :: 'l' :: rest2 => some (.null, rest2)
        | 't' :: 'r' :: 'u' :: 'e' :: rest2 => some (.bool true, rest2)
        | 'f' :: 'a' :: 'l' :: 's' :: 'e' :: rest2 => some (.bool false, rest2)
        | '"' :: rest2 => (parseStringBody [] rest2).map (fun p => (.str p.1, p.2))
        | '[' :: rest2 =>
          (match skipWs rest2 with
           | ']' :: r => some (.arr [], r)
           | _ => (parseElems fuel rest2).map (fun p => (.arr p.1, p.2)))
        | '\x7b' :: rest2 =>
          (match skipWs rest2 with
           | '\x7d' :: r => some (.obj [], r)
           | _ => (parseMembers fuel rest2).map (fun p => (.obj p.1, p.2)))
        | _ => none

/-- Parse the elements of a non-empty array body up to and including the
closing bracket. -/
def parseElems : Nat → List Char → Option (List JVal × List Char)
  | 0, _ => none
  | fuel + 1, cs =>
    match parseJVal fuel cs with
    | none => none
    | some (v, rest) =>
      match skipWs rest with
      | ',' :: r => (parseElems fuel r).map (fun p => (v :: p.1, p.2))
      | ']' :: r => some ([v], r)
      | _ => none

/-- Parse the members of a non-empty object body up to and including the
closing brace. -/
def parseMembers : Nat → List Char → Option (List (String × JVal) × List Char)
  | 0, _ => none
  | fuel + 1, cs =>
    match skipWs cs with
    | '"' :: rest =>
      (match parseStringBody [] rest with
       | none => none
       | some (k, r1) =>
         match skipWs r1 with
         | ':' :: r2 =>
           (match parseJVal fuel r2 with
            | none => none
            | some (v, r3) =>
              match skipWs r3 with
              | ',' :: r4 => (parseMembers fuel r4).map (fun p => ((k, v) :: p.1, p.2))
              | '\x7d' :: r4 => some ([(k, v)], r4)
              | _ => none)
         | _ => none)
    | _ => none

end

/-- `JSON.parse` on a whole string: parse one value (the fuel
`length + 1` covers any nesting the text can express, since every nested
value consumes at least one character) and require only whitespace after
it. -/
def jsonParse (s : String) : Option JVal :=
  match parseJVal (s.data.length + 1) s.data with
  | some (v, rest) => if (skipWs rest).isEmpty then some v else none
  | none => none

/-- The JSON branch of `Swiz.prototype.deserialize`: `JSON.parse` the raw
text, a parse failure being delivered as an error instead of thrown. -/
def Swiz.deserializeJson (raw : String) : Except String JVal :=
  match jsonParse raw with
  | some v => .ok v
  | none => .error "Unexpected token in JSON"

mutual

/-- Specification-side description of the structure the serialized text
denotes: the input with replacer-pruned object members removed and
replacer-pruned array elements replaced by `null` (a pruned element still
prints as the literal `null`).  With both options off this is the
identity on undefined-free structures. -/
def stripProperty (opts : SwizOpts) (key : String) (v : JVal) : Option JVal :=
  if jsonPruned opts key v then none
  else
    match v with
    | .undef => none
    | .arr elems => some (.arr (stripArrElems opts 0 elems))
    | .obj kvs => some (.obj (stripObjMembers opts kvs))
    | x => some x

def stripArrElems (opts : SwizOpts) (i : Nat) : List JVal → List JVal
  | [] => []
  | x :: rest =>
    (match stripProperty opts (natToString i) x with
     | none => .null
     | some v => v) :: stripArrElems opts (i + 1) rest

def stripObjMembers (opts : SwizOpts) : List (String × JVal) → List (String × JVal)
  | [] => []
  | (k, x) :: rest =>
    match stripProperty opts k x with
    | none => stripObjMembers opts rest
    | some v => (k, v) :: stripObjMembers opts rest

end

mutual

/-- A structure containing only scalars, sequences and string-keyed maps:
no `undefined` anywhere. -/
def noUndef : JVal → Bool
  | .undef => false
  | .arr elems => noUndefList elems
  | .obj kvs => noUndefFields kvs
  | _ => true

def noUndefList : List JVal → Bool
  | [] => true
  | x :: rest => noUndef x && noUndefList rest

def noUndefFields : List (String × JVal) → Bool
  | [] => true
  | kv :: rest => noUndef kv.2 && noUndefFields rest

end

/-- An append operation pushes its step at the end of the validator
array, stamped with the current counter value. -/
def appendsAtEnd (op : Chain → Chain) (stepName : String) : Prop :=
  ∀ c : Chain, ∃ s, (op c).validators = c.validators ++ [s] ∧ s.name = stepName ∧
    s.pos = c.validatorCount

/-- A flag operation inserts a no-op marker step at the front of the
validator array, stamped with the counter value at insertion time (not
with 0), so positional introspection finds it first but reports that
counter value. -/
def unshiftsMarker (op : Chain → Chain) (markerName : String) : Prop :=
  ∀ c : Chain, ∃ m, (op c).validators = m :: c.validators ∧ m.name = markerName ∧
    m.pos = c.validatorCount ∧ (∀ ni value baton, m.func ni value baton = .ok value) ∧
    (op c).getValidatorPos markerName = Int.ofNat c.validatorCount

/-- Schema used by the C1 witness: `a` plain, `b` immutable. -/
def c1SchemaExample : Schema :=
  [("a", .chain Chain.new), ("b", .chain (Chain.new.immutable))]

/-- The guard a number token needs on its right context: the next
character (if any) must not extend the token. -/
def numGuard (rest : List Char) : Prop :=
  ∀ c, rest.head? = some c → c.isDigit = false ∧ c ≠ '.' ∧ c ≠ 'e' ∧ c ≠ 'E'

/-- A text parses to a value, consuming exactly itself, for any
sufficient fuel and any right context guarding the token boundary. -/
def ParsesTo (txt : List Char) (v : JVal) : Prop :=
  ∀ fuel rest, txt.length < fuel → numGuard rest →
    parseJVal fuel (txt ++ rest) = some (v, rest)

/-- A rendered value text: nonempty, starting with a non-whitespace
character that is not a closing bracket. -/
def headOk (txt : List Char) : Prop :=
  ∃ c t, txt = c :: t ∧ isJsonWs c = false ∧ c ≠ ']' ∧ c ≠ '\x7d'

/-- Example chain carrying a `numItems(1,5)` constraint, used to exercise
the configuration-error and container-bound behaviour on concrete
inputs. -/
def numItemsChainExample : Chain :=
  match Chain.numItems Chain.new 1 (some 5) with
  | .ok c => c
  | .error _ => Chain.new

/-- C9: applying a chain that contains no validator steps to any value,
with any baton, always succeeds and returns the value unchanged; the
pass-through chain the schema compiler synthesizes for a field declaring
no explicit chain (and no enumeration) is exactly such an empty
`Chain()`. -/
theorem c9_empty_chain_identity :
    (∀ (c : Chain), c.validators = [] → ∀ (value baton : JVal),
      checkChain value c baton = .ok value) ∧
    Chain.new.validators = [] ∧
    (∀ (g fname : String),
      defToValve [⟨g, [⟨fname, none, none, none, false⟩]⟩] = [(g, [(fname, Chain.new)])]) := by
  refine ⟨fun c h value baton => ?_, rfl, fun g fname => rfl⟩
  simp [checkChain, h]
  rfl

/-- Witness for C9 at the empty chain and a concrete value. -/
theorem c9_witness :
    Chain.new.validators = [] ∧
    checkChain (JVal.num 5) Chain.new JVal.null = .ok (JVal.num 5) :=
  ⟨rfl, c9_empty_chain_identity.1 Chain.new rfl (JVal.num 5) JVal.null⟩

/-- C10: the step pushed by `numItems(min,max)` always succeeds on its
own and passes the value through unchanged; a chain holding only a
`numItems` constraint (no `isArray`/`isHash` step) therefore never
rejects any value for its size. -/
theorem c10_numItems_step_inert :
    ∀ (c : Chain) (mn : Int) (mx : Option Int) (c2 : Chain),
      Chain.numItems c mn mx = .ok c2 →
      (∃ vstep, c2.validators = c.validators ++ [vstep] ∧ vstep.name = "numItems" ∧
        ∀ ni value baton, vstep.func ni value baton = .ok value) ∧
      (c.validators = [] → ∀ value baton, checkChain value c2 baton = .ok value) := by
  intro c mn mx c2 h
  rw [Chain.numItems.eq_def] at h
  rcases mx with _ | m
  all_goals dsimp only at h
  all_goals split at h
  case isTrue => simp at h
  case isTrue => simp at h
  all_goals simp only [Except.ok.injEq] at h
  all_goals subst h
  all_goals refine ⟨⟨_, rfl, rfl, fun ni value baton => rfl⟩, fun h0 value baton => ?_⟩
  all_goals simp [checkChain, Chain.pushValidator, h0]

/-- Witness for C10: the chain built by `numItems(1, 5)` alone accepts
the empty array, whose size violates the declared bound. -/
theorem c10_witness :
    checkChain (JVal.arr []) numItemsChainExample JVal.null = .ok (JVal.arr []) :=
  (c10_numItems_step_inert Chain.new 1 (some 5) numItemsChainExample rfl).2 rfl
    (JVal.arr []) JVal.null

/-- C8: configuration errors are thrown synchronously at
chain-construction time (the chain-building call itself errors), never
delivered through a validation callback: a second `numItems` call on a
chain throws, and `custom(name)` throws for any name missing from the
registry. -/
theorem c8_config_errors_sync :
    (∀ (c : Chain) (mn : Int) (mx : Option Int), c.numItemsValidator.isSome = true →
      Chain.numItems c mn mx = .error "Chain can only have a single numItems validator") ∧
    (∀ (c c2 : Chain) (mn mn2 : Int) (mx mx2 : Option Int),
      Chain.numItems c mn mx = .ok c2 →
      Chain.numItems c2 mn2 mx2 = .error "Chain can only have a single numItems validator") ∧
    (∀ (reg : List (String × Validator)) (c : Chain) (nm : String),
      reg.find? (fun kv => kv.1 == nm) = none →
      Chain.custom reg c nm = .error ("Unknown validator name \x27" ++ nm ++ "\x27")) := by
  refine ⟨fun c mn mx h => ?_, fun c c2 mn mn2 mx mx2 h => ?_, fun reg c nm h => ?_⟩
  · rw [Chain.numItems.eq_def]
    rcases mx with _ | m
    all_goals dsimp only
    all_goals rw [if_pos h]
  · have h2 : c2.numItemsValidator.isSome = true := by
      rw [Chain.numItems.eq_def] at h
      rcases mx with _ | m
      all_goals dsimp only at h
      all_goals split at h
      case isTrue => simp at h
      case isTrue => simp at h
      all_goals simp only [Except.ok.injEq] at h
      all_goals subst h
      all_goals rfl
    rw [Chain.numItems.eq_def]
    rcases mx2 with _ | m2
    all_goals dsimp only
    all_goals rw [if_pos h2]
  · simp [Chain.custom, h]

/-- Witness for C8 at concrete chains and an empty registry. -/
theorem c8_witness :
    Chain.numItems numItemsChainExample 2 none =
      .error "Chain can only have a single numItems validator" ∧
    Chain.custom [] Chain.new "nope" = .error "Unknown validator name \x27nope\x27" :=
  ⟨c8_config_errors_sync.1 numItemsChainExample 2 none rfl,
   c8_config_errors_sync.2.2 [] Chain.new "nope" rfl⟩

/-- Counterexample to C5: after one preceding append, the marker
inserted by `optional()` sits at array position 0 but carries stamped
position 1, and `getValidatorPos` returns that stamped value, not 0. -/
theorem c5_counterexample :
    ((Chain.new.isString).optional).getValidatorPos "optional" = 1 ∧
    ((Chain.new.isString).optional).getValidatorPos "optional" ≠ 0 := by
  constructor
  · decide
  · decide

/-- C5 as amended: `optional()`, `immutable()` and `updateRequired()`
set their chain-level flag and unshift a no-op marker step to the front
of the validator array; the marker's stamped position is the number of
validators previously added (so `getValidatorPos` returns 0 exactly when
the marker was added to a fresh chain), while every other append
operation pushes its step at the end. -/
theorem c5_marker_positions :
    unshiftsMarker Chain.optional "optional" ∧
    (∀ c, (Chain.optional c).isOptional = true) ∧
    unshiftsMarker Chain.immutable "immutable" ∧
    (∀ c, (Chain.immutable c).isImmutable = true) ∧
    unshiftsMarker Chain.updateRequired "updateRequired" ∧
    (∀ c, (Chain.updateRequired c).isUpdateRequired = true) ∧
    appendsAtEnd Chain.isString "isString" ∧
    appendsAtEnd Chain.isBoolean "isBoolean" ∧
    appendsAtEnd Chain.isInt "isInt" ∧
    appendsAtEnd Chain.notEmpty "notEmpty" ∧
    (∀ m, appendsAtEnd (fun c => Chain.enumerated c m) "enumerated") ∧
    (∀ inner, appendsAtEnd (fun c => Chain.isArray c inner) "isArray") ∧
    (∀ kc vc, appendsAtEnd (fun c => Chain.isHash c kc vc) "isHash") ∧
    (∀ c : Chain, c.validatorCount = 0 →
      (Chain.optional c).getValidatorPos "optional" = 0) := by
  have hmark : ∀ (op : Chain → Chain) (nm : String),
      (∀ c, ∃ c1 : Chain, c1.validators = c.validators ∧
        c1.validatorCount = c.validatorCount ∧
        op c = c1.unshiftValidator
          { name := nm, func := fun _ value _ => .ok value, help := (op c).validators.head?.bind (fun v => v.help) }) →
      unshiftsMarker op nm := by
    intro op nm hop c
    obtain ⟨c1, hv, hc, heq⟩ := hop c
    refine ⟨_, by rw [heq, Chain.unshiftValidator, hv], rfl, by rw [heq]; exact hc, fun ni value baton => rfl, ?_⟩
    rw [heq, Chain.getValidatorPos, Chain.unshiftValidator]
    simp [hc]
  refine ⟨?_, fun c => rfl, ?_, fun c => rfl, ?_, fun c => rfl,
    fun c => ⟨_, rfl, rfl, rfl⟩, fun c => ⟨_, rfl, rfl, rfl⟩,
    fun c => ⟨_, rfl, rfl, rfl⟩, fun c => ⟨_, rfl, rfl, rfl⟩,
    fun m c => ⟨_, rfl, rfl, rfl⟩, fun inner c => ⟨_, rfl, rfl, rfl⟩,
    fun kc vc c => ⟨_, rfl, rfl, rfl⟩, fun c h0 => ?_⟩
  · exact hmark _ _ (fun c => ⟨{ c with isOptional := true }, rfl, rfl, rfl⟩)
  · exact hmark _ _ (fun c => ⟨{ c with isImmutable := true }, rfl, rfl, rfl⟩)
  · exact hmark _ _ (fun c => ⟨{ c with isUpdateRequired := true }, rfl, rfl, rfl⟩)
  · rw [Chain.optional, Chain.getValidatorPos, Chain.unshiftValidator]
    simp [h0]

/-- Witness for C5: the amended position formula evaluated on a fresh
chain (marker position 0) and after one preceding append (position 1). -/
theorem c5_witness :
    (Chain.optional Chain.new).getValidatorPos "optional" = 0 ∧
    (Chain.optional (Chain.new.isString)).getValidatorPos "optional" = Int.ofNat 1 := by
  constructor
  · exact c5_marker_positions.2.2.2.2.2.2.2.2.2.2.2.2.2 Chain.new rfl
  · obtain ⟨m, hv, hn, hp, hf, hpos⟩ :=
      c5_marker_positions.1 (Chain.new.isString)
    exact hpos

/-- Counterexample to C6: `isBoolean` is coercing, not non-coercing: on
the string "0" it succeeds with the boolean `false`, not with the
original string. -/
theorem c6_counterexample :
    checkChain (JVal.str "0") (Chain.new.isBoolean) JVal.null = .ok (JVal.bool false) ∧
    checkChain (JVal.str "0") (Chain.new.isBoolean) JVal.null ≠ .ok (JVal.str "0") := by
  constructor
  · rfl
  · intro h
    rw [show checkChain (JVal.str "0") (Chain.new.isBoolean) JVal.null =
      .ok (JVal.bool false) from rfl] at h
    exact JVal.noConfusion (Except.ok.inj h)

/-- C6 as amended: the `isBoolean` step fails for `null` and `undefined`
and for any value whose string form matches neither `^0$|^false$`(i) nor
`^1$|^true$`(i); when the string form matches the false pattern it
succeeds with the boolean `false`, and when it matches the true pattern
it succeeds with the boolean `true` — the step coerces, replacing the
original value. -/
theorem c6_isBoolean_coerces :
    ∀ (ni : Option (Int × Option Int)) (value baton : JVal),
      ((value = .null ∨ value = .undef) → isBooleanFunc ni value baton = .error "Not a boolean") ∧
      (value ≠ .null → value ≠ .undef →
        ((matchesFalseRegex (jsToString value) = true →
            isBooleanFunc ni value baton = .ok (.bool false)) ∧
         (matchesFalseRegex (jsToString value) = false →
            matchesTrueRegex (jsToString value) = true →
            isBooleanFunc ni value baton = .ok (.bool true)) ∧
         (matchesFalseRegex (jsToString value) = false →
            matchesTrueRegex (jsToString value) = false →
            isBooleanFunc ni value baton = .error "Not a boolean"))) ∧
      checkChain value (Chain.new.isBoolean) baton = isBooleanFunc none value baton := by
  intro ni value baton
  refine ⟨?_, ?_, ?_⟩
  · rintro (rfl | rfl) <;> rfl
  · intro h1 h2
    refine ⟨fun hf => ?_, fun hf ht => ?_, fun hf ht => ?_⟩
    all_goals cases value
    all_goals first
      | exact absurd rfl h1
      | exact absurd rfl h2
      | simp_all [isBooleanFunc]
  · simp [checkChain, Chain.isBoolean, Chain.pushValidator, Chain.new]

/-- Witness for C6: `null` is rejected and a mixed-case "TrUe" string
coerces to the boolean `true`. -/
theorem c6_witness :
    isBooleanFunc none JVal.null JVal.null = .error "Not a boolean" ∧
    isBooleanFunc none (JVal.str "TrUe") JVal.null = .ok (JVal.bool true) := by
  constructor
  · exact (c6_isBoolean_coerces none JVal.null JVal.null).1 (Or.inl rfl)
  · exact ((c6_isBoolean_coerces none (JVal.str "TrUe") JVal.null).2.1
      (fun h => JVal.noConfusion h) (fun h => JVal.noConfusion h)).2.1 (by decide) (by decide)

/-- Reading a key-preserving map of an association list with distinct
keys at one of its keys recovers that entry's value. -/
theorem objGet_map_pair {β : Type} (l : List (String × β)) (g : String × β → JVal)
    (hnd : (l.map (fun kv => kv.1)).Nodup) (kv : String × β) (hmem : kv ∈ l) :
    objGet (l.map (fun x => (x.1, g x))) kv.1 = g kv := by
  induction l with
  | nil => cases hmem
  | cons hd tl ih =>
    simp only [List.map_cons, List.nodup_cons] at hnd
    rcases List.mem_cons.mp hmem with rfl | hmem2
    · simp [objGet, List.find?_cons_of_pos]
    · have hne : (hd.1 == kv.1) = false := by
        rw [beq_eq_false_iff_ne]
        intro he
        exact hnd.1 (he ▸ List.mem_map_of_mem (fun kv => kv.1) hmem2)
      have hrec := ih hnd.2 hmem2
      simp only [objGet] at hrec ⊢
      rw [List.map_cons, List.find?_cons]
      simp only [hne]
      exact hrec

/-- C1: `checkUpdate` fails with a field error record naming the first
own key of the partial whose chain is immutable and whose value differs
(under `===`) from the existing object's value at the rename target; with
no such key (and no final validator) it succeeds with the merged object
that takes the partial's value for every schema key the partial provides
and the existing object's value at the rename target for every other
schema key.  The embedding is a pure function of the existing object, so
the existing object itself is never modified (the source only reads
it). -/
theorem c1_checkUpdate_immutability (v : Valve) (schema : Schema) (existing obj : JObj)
    (hs : v.schema = some schema) :
    (∀ kv, obj.find? (immutableViolation schema existing) = some kv →
      v.checkUpdate existing obj =
        .error (.record kv.1 [] "Attempted to mutate immutable field")) ∧
    ((∃ kv ∈ obj, immutableViolation schema existing kv = true) →
      ∃ kv, kv ∈ obj ∧ immutableViolation schema existing kv = true ∧
        v.checkUpdate existing obj =
          .error (.record kv.1 [] "Attempted to mutate immutable field")) ∧
    ((∀ kv ∈ obj, immutableViolation schema existing kv = false) →
      v.finalValidator = none →
      (schema.map (fun kv => kv.1)).Nodup →
      ∃ m, v.checkUpdate existing obj = .ok m ∧
        m.map (fun kv => kv.1) = schema.map (fun kv => kv.1) ∧
        ∀ kv ∈ schema, objGet m kv.1 =
          (if objHas obj kv.1 then objGet obj kv.1
           else objGet existing (entryTargetOr kv.2 kv.1))) := by
  refine ⟨fun kv hf => ?_, fun hex => ?_, fun hall hfv hnd => ?_⟩
  · simp [Valve.checkUpdate, hs, hf]
  · have hsome : (obj.find? (immutableViolation schema existing)).isSome :=
      List.find?_isSome.mpr hex
    obtain ⟨kv, hkv⟩ := Option.isSome_iff_exists.mp hsome
    exact ⟨kv, List.mem_of_find?_eq_some hkv, List.find?_some hkv, by
      simp [Valve.checkUpdate, hs, hkv]⟩
  · have hnone : obj.find? (immutableViolation schema existing) = none :=
      List.find?_eq_none.mpr (by intro x hx; simp [hall x hx])
    refine ⟨schema.map (fun x => (x.1,
        if objHas obj x.1 then objGet obj x.1
        else objGet existing (entryTargetOr x.2 x.1))), ?_, ?_, ?_⟩
    · simp [Valve.checkUpdate, hs, hnone, hfv]
    · simp
    · intro kv hmem
      exact objGet_map_pair schema
        (fun x => if objHas obj x.1 then objGet obj x.1
          else objGet existing (entryTargetOr x.2 x.1)) hnd kv hmem

/-- Witness for C1: with existing `{a:"foo", b:1233}` and partial
`{a:"bar", b:1234}` over a schema where `b` is immutable, `checkUpdate`
fails naming `b`; dropping `b` from the partial, the merge succeeds. -/
theorem c1_witness :
    Valve.checkUpdate ⟨some c1SchemaExample, .null, none⟩
      [("a", .str "foo"), ("b", .num 1233)] [("a", .str "bar"), ("b", .num 1234)] =
      .error (.record "b" [] "Attempted to mutate immutable field") ∧
    (Valve.checkUpdate ⟨some c1SchemaExample, .null, none⟩
      [("a", .str "foo"), ("b", .num 1233)] [("a", .str "bar")]).isOk = true := by
  constructor
  · exact (c1_checkUpdate_immutability _ c1SchemaExample _ _ rfl).1
      ("b", .num 1234) rfl
  · obtain ⟨m, hm, -, -⟩ := (c1_checkUpdate_immutability
      ⟨some c1SchemaExample, .null, none⟩ c1SchemaExample
      [("a", .str "foo"), ("b", .num 1233)] [("a", .str "bar")] rfl).2.2
      (by decide) rfl (by decide)
    rw [hm]
    rfl

/-- A key that is absent reads as `undefined`. -/
theorem objGet_of_objHas_false (o : JObj) (k : String) (h : objHas o k = false) :
    objGet o k = .undef := by
  have hn : o.find? (fun kv => kv.1 == k) = none := by
    rw [List.find?_eq_none]
    intro x hx
    have hall := List.any_eq_false.mp h
    exact fun hp => hall x hx hp
  simp [objGet, hn]

/-- C2: in a non-partial check, a schema field is treated as follows:
an optional field explicitly bound to `null` passes `null` through into
the cleaned object with no error; an optional field entirely absent from
the input adds no binding and produces no error; a non-optional field
absent from the input produces the "missing required key" error record
naming the field. -/
theorem c2_optional_and_missing (obj : JObj) (key : String) (entry : SchemaEntry)
    (cleaned : JObj) (parentKeys : List String) (baton : JVal) :
    (entryIsOptional entry = true → objGet obj key = .null →
      checkSchemaField obj key entry cleaned parentKeys false baton =
        .ok (objSet cleaned key .null, parentKeys)) ∧
    (entryIsOptional entry = true → objHas obj key = false →
      checkSchemaField obj key entry cleaned parentKeys false baton =
        .ok (cleaned, parentKeys)) ∧
    (entryIsOptional entry = false → objHas obj key = false →
      checkSchemaField obj key entry cleaned parentKeys false baton =
        .error (.record key parentKeys ("Missing required key (" ++ key ++ ")"))) := by
  refine ⟨fun hopt hnull => ?_, fun hopt habs => ?_, fun hopt habs => ?_⟩
  · rw [checkSchemaField.eq_def, hnull, hopt]
    rfl
  · have hu : objGet obj key = .undef := objGet_of_objHas_false obj key habs
    rw [checkSchemaField.eq_def, hu, hopt, habs]
    rfl
  · have hu : objGet obj key = .undef := objGet_of_objHas_false obj key habs
    rw [checkSchemaField.eq_def, hu, hopt, habs]
    rfl

/-- Witness for C2: an optional field with explicit `null`, an optional
field absent, and a required field absent, all on concrete inputs. -/
theorem c2_witness :
    checkSchemaField [("x", .null)] "x" (.chain (Chain.new.optional)) [] [] false .null =
      .ok (objSet [] "x" .null, []) ∧
    checkSchemaField [] "x" (.chain (Chain.new.optional)) [] [] false .null =
      .ok ([], []) ∧
    checkSchemaField [] "x" (.chain Chain.new) [] [] false .null =
      .error (.record "x" [] "Missing required key (x)") := by
  refine ⟨?_, ?_, ?_⟩
  · exact (c2_optional_and_missing [("x", .null)] "x" (.chain (Chain.new.optional))
      [] [] .null).1 rfl rfl
  · exact (c2_optional_and_missing [] "x" (.chain (Chain.new.optional))
      [] [] .null).2.1 rfl rfl
  · exact (c2_optional_and_missing [] "x" (.chain Chain.new)
      [] [] .null).2.2 rfl rfl

/-- Keys present after `objSet` come from the original object or are the
written key. -/
theorem objHas_objSet (o : JObj) (k k2 : String) (v : JVal)
    (h : objHas (objSet o k v) k2 = true) : objHas o k2 = true ∨ k2 = k := by
  rw [objSet] at h
  split at h
  · rw [objHas, List.any_eq_true] at h
    obtain ⟨x, hx, hpx⟩ := h
    obtain ⟨y, hy, hyx⟩ := List.mem_map.mp hx
    by_cases hk : (y.1 == k) = true
    · rw [if_pos hk] at hyx
      subst hyx
      exact Or.inr (beq_iff_eq.mp hpx).symm
    · rw [if_neg hk] at hyx
      subst hyx
      exact Or.inl (List.any_eq_true.mpr ⟨y, hy, hpx⟩)
  · rw [objHas, List.any_eq_true] at h
    obtain ⟨x, hx, hpx⟩ := h
    rcases List.mem_append.mp hx with hx1 | hx2
    · exact Or.inl (List.any_eq_true.mpr ⟨x, hx1, hpx⟩)
    · have hx3 : x = (k, v) := by simpa using hx2
      subst hx3
      exact Or.inr (beq_iff_eq.mp hpx).symm

/-- A key bound by one `checkSchemaField` step either was already in the
accumulator, is the field's own name, or is the field chain's rename
target. -/
theorem checkSchemaField_keys (obj : JObj) (key : String) (entry : SchemaEntry)
    (cleaned : JObj) (pk : List String) (pm : Bool) (baton : JVal)
    (out : JObj) (pk2 : List String)
    (h : checkSchemaField obj key entry cleaned pk pm baton = .ok (out, pk2)) :
    ∀ k, objHas out k = true →
      objHas cleaned k = true ∨ k = key ∨ entryTarget entry = some k := by
  intro k hk
  rw [checkSchemaField.eq_def] at h
  split at h
  · simp only [Except.ok.injEq, Prod.mk.injEq] at h
    rcases objHas_objSet cleaned key k .null (h.1 ▸ hk) with h1 | h2
    · exact Or.inl h1
    · exact Or.inr (Or.inl h2)
  · split at h
    · cases entry with
      | chain c =>
        dsimp only at h
        rcases htc : c.target with _ | t
        all_goals rw [htc] at h
        all_goals dsimp only at h
        all_goals split at h
        case h_1 => cases h
        case h_1 => cases h
        all_goals simp only [Except.ok.injEq, Prod.mk.injEq] at h
        · rcases objHas_objSet cleaned key k _ (h.1 ▸ hk) with h1 | h2
          · exact Or.inl h1
          · exact Or.inr (Or.inl h2)
        · rcases objHas_objSet cleaned t k _ (h.1 ▸ hk) with h1 | h2
          · exact Or.inl h1
          · exact Or.inr (Or.inr (by rw [entryTarget, htc, h2]))
      | sub s =>
        dsimp only at h
        split at h
        · cases h
        · simp only [Except.ok.injEq, Prod.mk.injEq] at h
          rcases objHas_objSet cleaned key k _ (h.1 ▸ hk) with h1 | h2
          · exact Or.inl h1
          · exact Or.inr (Or.inl h2)
    · split at h
      · simp only [Except.ok.injEq, Prod.mk.injEq] at h
        exact Or.inl (h.1 ▸ hk)
      · cases h

/-- A key of the cleaned object produced by `checkSchemaList` either was
already in the accumulator or is a schema key or a rename target of one
of its entries. -/
theorem checkSchemaList_keys (entries : List (String × SchemaEntry)) :
    ∀ (obj cleaned : JObj) (pk : List String) (pm : Bool) (baton : JVal)
      (out : JObj) (pk2 : List String),
      checkSchemaList obj entries cleaned pk pm baton = .ok (out, pk2) →
      ∀ k, objHas out k = true →
        objHas cleaned k = true ∨ ∃ e ∈ entries, e.1 = k ∨ entryTarget e.2 = some k := by
  induction entries with
  | nil =>
    intro obj cleaned pk pm baton out pk2 h k hk
    rw [checkSchemaList.eq_def] at h
    simp only [Except.ok.injEq, Prod.mk.injEq] at h
    exact Or.inl (h.1 ▸ hk)
  | cons hd tl ih =>
    obtain ⟨hk1, hk2⟩ := hd
    intro obj cleaned pk pm baton out pk2 h k hk
    rw [checkSchemaList.eq_def] at h
    dsimp only at h
    rcases hcf : checkSchemaField obj hk1 hk2 cleaned pk pm baton with e | ⟨c1, p1⟩
    all_goals rw [hcf] at h
    · cases h
    · dsimp only at h
      rcases ih obj c1 p1 pm baton out pk2 h k hk with h1 | ⟨e, he, hor⟩
      · rcases checkSchemaField_keys obj hk1 hk2 cleaned pk pm baton c1 p1 hcf k h1 with
          h2 | h3 | h4
        · exact Or.inl h2
        · exact Or.inr ⟨(hk1, hk2), List.mem_cons_self _ _, Or.inl h3.symm⟩
        · exact Or.inr ⟨(hk1, hk2), List.mem_cons_self _ _, Or.inr h4⟩
      · exact Or.inr ⟨e, List.mem_cons_of_mem _ he, hor⟩

/-- C3: with `options.strict` set, the first own key of the input that
is absent from the schema aborts `check` with the "key not allowed"
record, whatever the per-field chains are (they never run); without
strict mode the same input succeeds whenever the per-field pass
succeeds, and the extra key (being neither a schema key nor a rename
target of one) is absent from the cleaned output. -/
theorem c3_strict_mode (v : Valve) (schema : Schema) (obj : JObj)
    (hs : v.schema = some schema) :
    (∀ kv, obj.find? (fun kv => !(schemaHas schema kv.1)) = some kv →
      v.check obj ⟨true⟩ = .error (.strictKey kv.1 "This key is not allowed")) ∧
    ((∃ kv ∈ obj, schemaHas schema kv.1 = false) →
      ∃ kv, kv ∈ obj ∧ schemaHas schema kv.1 = false ∧
        v.check obj ⟨true⟩ = .error (.strictKey kv.1 "This key is not allowed")) ∧
    (v.finalValidator = none →
      ∀ cleaned pk2, checkSchema obj schema [] false v.baton = .ok (cleaned, pk2) →
        v.check obj ⟨false⟩ = .ok cleaned ∧
        ∀ k, schemaHas schema k = false →
          (∀ e ∈ schema, entryTarget e.2 ≠ some k) →
          objHas cleaned k = false) := by
  refine ⟨fun kv hf => ?_, fun hex => ?_, fun hfv cleaned pk2 hcs => ?_⟩
  · simp [Valve.check, hs, hf]
  · have hsome : (obj.find? (fun kv => !(schemaHas schema kv.1))).isSome :=
      List.find?_isSome.mpr (by
        obtain ⟨kv, hmem, hkv⟩ := hex
        exact ⟨kv, hmem, by simp [hkv]⟩)
    obtain ⟨kv, hkv⟩ := Option.isSome_iff_exists.mp hsome
    have hp := List.find?_some hkv
    refine ⟨kv, List.mem_of_find?_eq_some hkv, by simpa using hp, by
      simp [Valve.check, hs, hkv]⟩
  · constructor
    · simp [Valve.check, hs, hcs, hfv]
    · intro k hnk htg
      rw [← Bool.not_eq_true]
      intro hk
      rw [checkSchema] at hcs
      rcases checkSchemaList_keys schema obj [] [] false v.baton cleaned pk2 hcs k hk with
        h1 | ⟨e, he, hor⟩
      · simp [objHas] at h1
      · rcases hor with h2 | h3
        · have hx : schemaHas schema k = true :=
            List.any_eq_true.mpr ⟨e, he, by simp [h2]⟩
          rw [hnk] at hx
          cases hx
        · exact htg e he h3

/-- Witness for C3: schema `{a: chain}` with strict mode and input
`{a:5, b:5}` fails identifying `b`; without strict mode the same input
succeeds and `b` is dropped from the cleaned output. -/
theorem c3_witness :
    Valve.check ⟨some [("a", .chain Chain.new)], .null, none⟩
      [("a", .num 5), ("b", .num 5)] ⟨true⟩ =
      .error (.strictKey "b" "This key is not allowed") ∧
    Valve.check ⟨some [("a", .chain Chain.new)], .null, none⟩
      [("a", .num 5), ("b", .num 5)] ⟨false⟩ = .ok [("a", .num 5)] ∧
    objHas [("a", JVal.num 5)] "b" = false := by
  have h := c3_strict_mode ⟨some [("a", .chain Chain.new)], .null, none⟩
    [("a", .chain Chain.new)] [("a", .num 5), ("b", .num 5)] rfl
  refine ⟨h.1 ("b", .num 5) rfl, ?_, ?_⟩
  · obtain ⟨hc, _⟩ := h.2.2 rfl [("a", .num 5)] [] rfl
    exact hc
  · obtain ⟨-, hk⟩ := h.2.2 rfl [("a", .num 5)] [] rfl
    exact hk "b" rfl (by
      intro e he ht
      have he2 : e = ("a", SchemaEntry.chain Chain.new) := by simpa using he
      subst he2
      simp [entryTarget, Chain.new] at ht)

/-- Pointwise-successful `mapM` in `Except` maps in index order. -/
theorem mapM_ok_of_forall {α : Type} (g : α → Except String JVal) (f : α → JVal) :
    ∀ (l : List α), (∀ x ∈ l, g x = .ok (f x)) → l.mapM g = .ok (l.map f) := by
  intro l
  induction l with
  | nil => intro h; rfl
  | cons hd tl ih =>
    intro h
    rw [List.mapM_cons, h hd (List.mem_cons_self hd tl),
      ih (fun x hx => h x (List.mem_cons_of_mem hd hx))]
    rfl

/-- `mapM` in `Except` propagates the first element failure past a
successful prefix. -/
theorem mapM_error_of_front {α : Type} (g : α → Except String JVal) (e : String) :
    ∀ (pre : List α) (x : α) (suf : List α),
      (∀ y ∈ pre, ∃ z, g y = .ok z) → g x = .error e →
      (pre ++ x :: suf).mapM g = .error e := by
  intro pre
  induction pre with
  | nil =>
    intro x suf hpre hx
    rw [List.nil_append, List.mapM_cons, hx]
    rfl
  | cons hd tl ih =>
    intro x suf hpre hx
    obtain ⟨z, hz⟩ := hpre hd (List.mem_cons_self hd tl)
    rw [List.cons_append, List.mapM_cons, hz,
      ih x suf (fun y hy => hpre y (List.mem_cons_of_mem hd hy)) hx]
    rfl

/-- A fold in `Except` over a prefix of everywhere-successful steps
reaches the remaining suffix with some accumulator. -/
theorem foldlM_prefix_reaches {α β : Type} (f : β → α → Except String β) :
    ∀ (l1 : List α) (l2 : List α) (b : β),
      (∀ a ∈ l1, ∀ m, ∃ m2, f m a = .ok m2) →
      ∃ b2, (l1 ++ l2).foldlM f b = l2.foldlM f b2 := by
  intro l1
  induction l1 with
  | nil => intro l2 b _; exact ⟨b, rfl⟩
  | cons hd tl ih =>
    intro l2 b h
    obtain ⟨m2, hm2⟩ := h hd (List.mem_cons_self hd tl) b
    obtain ⟨b2, hb2⟩ := ih l2 m2 (fun a ha m => h a (List.mem_cons_of_mem hd ha) m)
    refine ⟨b2, ?_⟩
    rw [List.cons_append, List.foldlM_cons, hm2]
    simpa using hb2

/-- The validators.js `numItems` check fails with the bound-citing
message when an array's length falls outside the constraint. -/
theorem numItemsHelper_err_arr (mn : Int) (mx : Option Int) (elems : List JVal)
    (h : (elems.length : Int) < mn ∨ (∃ m, mx = some m ∧ (elems.length : Int) > m)) :
    numItemsHelper (.arr elems) mn mx = .error (numItemsMsg mn mx) := by
  rcases mx with _ | m
  · rcases h with h1 | ⟨m, hm, _⟩
    · rw [numItemsHelper]
      rw [if_pos (by simp [Int.ofNat_eq_natCast]; omega)]
      rfl
    · cases hm
  · rcases h with h1 | ⟨m2, hm, h2⟩
    · rw [numItemsHelper]
      rw [if_pos (by simp [Int.ofNat_eq_natCast]; omega)]
      rfl
    · injection hm with hm2
      subst hm2
      rw [numItemsHelper]
      rw [if_pos (by simp [Int.ofNat_eq_natCast]; omega)]
      rfl

/-- C7: the `isArray(inner)` step rejects non-arrays; on an array it
first enforces the owning chain's `numItems` bound on the container,
failing with the bound's message when the length is outside it; then it
applies the inner chain to every element, producing the results in input
index order and propagating the first nested element failure.  The
analogous `isHash` step fails citing the offending key when the key or
value chain rejects a pair (after a successful prefix of pairs), and a
chain built by `numItems` followed by `isArray` routes its stored
constraint into the step. -/
theorem c7_isArray_isHash :
    (∀ (inner : Chain) (ni : Option (Int × Option Int)) (value baton : JVal),
      typeOf value ≠ "array" → isArrayFunc inner ni value baton = .error "Not an array") ∧
    (∀ (inner : Chain) (mn : Int) (mx : Option Int) (elems : List JVal) (baton : JVal),
      ((elems.length : Int) < mn ∨ (∃ m, mx = some m ∧ (elems.length : Int) > m)) →
      isArrayFunc inner (some (mn, mx)) (.arr elems) baton = .error (numItemsMsg mn mx)) ∧
    (∀ (inner : Chain) (ni : Option (Int × Option Int)) (elems : List JVal) (baton : JVal)
      (f : JVal → JVal),
      validateNumItems ni (.arr elems) = .ok (.arr elems) →
      (∀ x ∈ elems, checkChain x inner baton = .ok (f x)) →
      isArrayFunc inner ni (.arr elems) baton = .ok (.arr (elems.map f))) ∧
    (∀ (inner : Chain) (ni : Option (Int × Option Int)) (pre : List JVal) (x : JVal)
      (suf : List JVal) (baton : JVal) (e : String),
      validateNumItems ni (.arr (pre ++ x :: suf)) = .ok (.arr (pre ++ x :: suf)) →
      (∀ y ∈ pre, ∃ z, checkChain y inner baton = .ok z) →
      checkChain x inner baton = .error e →
      isArrayFunc inner ni (.arr (pre ++ x :: suf)) baton = .error e) ∧
    (∀ (kc vc : Chain) (ni : Option (Int × Option Int)) (kvs1 : JObj) (k : String)
      (x : JVal) (kvs2 : JObj) (baton : JVal) (e : String),
      validateNumItems ni (.obj (kvs1 ++ (k, x) :: kvs2)) =
        .ok (.obj (kvs1 ++ (k, x) :: kvs2)) →
      (∀ p ∈ kvs1, ∃ ck cv, checkChain (.str p.1) kc baton = .ok ck ∧
        checkChain p.2 vc baton = .ok cv) →
      ((checkChain (.str k) kc baton = .error e →
        isHashFunc kc vc ni (.obj (kvs1 ++ (k, x) :: kvs2)) baton =
          .error ("Key " ++ k ++ ": " ++ e)) ∧
       (∀ ck, checkChain (.str k) kc baton = .ok ck →
        checkChain x vc baton = .error e →
        isHashFunc kc vc ni (.obj (kvs1 ++ (k, x) :: kvs2)) baton =
          .error ("Value for key \x27" ++ k ++ "\x27: " ++ e)))) ∧
    (∀ (inner c2 : Chain) (mn : Int) (mx : Option Int) (value baton : JVal),
      Chain.numItems Chain.new mn mx = .ok c2 →
      checkChain value (c2.isArray inner) baton =
        isArrayFunc inner c2.numItemsValidator value baton) := by
  refine ⟨fun inner ni value baton hv => ?_, fun inner mn mx elems baton hb => ?_,
    fun inner ni elems baton f hni hall => ?_,
    fun inner ni pre x suf baton e hni hpre hx => ?_,
    fun kc vc ni kvs1 k x kvs2 baton e hni hpre => ⟨fun hk => ?_, fun ck hk hx => ?_⟩,
    fun inner c2 mn mx value baton hc => ?_⟩
  · rw [isArrayFunc.eq_def]
    cases value <;> first | rfl | (exfalso; exact hv rfl)
  · rw [isArrayFunc.eq_def]
    dsimp only
    rw [show validateNumItems (some (mn, mx)) (.arr elems) =
      numItemsHelper (.arr elems) mn mx from rfl]
    rw [numItemsHelper_err_arr mn mx elems hb]
  · rw [isArrayFunc.eq_def]
    simp only [hni]
    rw [mapM_ok_of_forall (fun item => checkChain item inner baton) f elems hall]
    rfl
  · rw [isArrayFunc.eq_def]
    simp only [hni]
    rw [mapM_error_of_front (fun item => checkChain item inner baton) e pre x suf hpre hx]
    rfl
  · rw [isHashFunc.eq_def]
    simp only [hni]
    have hiter : ∀ p ∈ kvs1, ∀ m, ∃ m2, isHashIter kc vc baton m p = .ok m2 := by
      intro p hp m
      obtain ⟨ck, cv, hck, hcv⟩ := hpre p hp
      exact ⟨objSet m (jsToString ck) cv, by rw [isHashIter, hck, hcv]⟩
    obtain ⟨b2, hb2⟩ := foldlM_prefix_reaches (isHashIter kc vc baton) kvs1 ((k, x) :: kvs2)
      [] hiter
    rw [hb2, List.foldlM_cons, show isHashIter kc vc baton b2 (k, x) =
      .error ("Key " ++ k ++ ": " ++ e) from by rw [isHashIter, hk]]
    rfl
  · rw [isHashFunc.eq_def]
    simp only [hni]
    have hiter : ∀ p ∈ kvs1, ∀ m, ∃ m2, isHashIter kc vc baton m p = .ok m2 := by
      intro p hp m
      obtain ⟨ck2, cv, hck, hcv⟩ := hpre p hp
      exact ⟨objSet m (jsToString ck2) cv, by rw [isHashIter, hck, hcv]⟩
    obtain ⟨b2, hb2⟩ := foldlM_prefix_reaches (isHashIter kc vc baton) kvs1 ((k, x) :: kvs2)
      [] hiter
    rw [hb2, List.foldlM_cons, show isHashIter kc vc baton b2 (k, x) =
      .error ("Value for key \x27" ++ k ++ "\x27: " ++ e) from by rw [isHashIter, hk, hx]]
    rfl
  · rw [Chain.numItems.eq_def] at hc
    rcases mx with _ | m
    all_goals dsimp only at hc
    all_goals split at hc
    case isTrue => simp at hc
    case isTrue => simp at hc
    all_goals simp only [Except.ok.injEq] at hc
    all_goals subst hc
    all_goals rw [checkChain, Chain.isArray]
    all_goals simp [Chain.pushValidator, Chain.new]
    all_goals rfl

/-- Witness for C7: `isArray(isInt)` over a chain carrying `numItems(1,5)`
succeeds on `[1,2,3]` and fails on `[]` citing the 1..5 bound; `isHash`
with a string value chain fails on `{a:1}` citing key `a`; a non-array is
rejected outright. -/
theorem c7_witness :
    checkChain (JVal.arr [JVal.num 1, JVal.num 2, JVal.num 3])
      (numItemsChainExample.isArray (Chain.new.isInt)) JVal.null =
      .ok (JVal.arr [JVal.num 1, JVal.num 2, JVal.num 3]) ∧
    checkChain (JVal.arr []) (numItemsChainExample.isArray (Chain.new.isInt)) JVal.null =
      .error (numItemsMsg 1 (some 5)) ∧
    isHashFunc (Chain.new.isString) (Chain.new.isString) none
      (JVal.obj [("a", JVal.num 1)]) JVal.null =
      .error ("Value for key \x27a\x27: Not a string") ∧
    isArrayFunc (Chain.new.isInt) none (JVal.str "nope") JVal.null =
      .error "Not an array" := by
  refine ⟨?_, ?_, ?_, ?_⟩
  · rw [c7_isArray_isHash.2.2.2.2.2 (Chain.new.isInt) numItemsChainExample 1 (some 5)
      (JVal.arr [JVal.num 1, JVal.num 2, JVal.num 3]) JVal.null rfl]
    exact c7_isArray_isHash.2.2.1 (Chain.new.isInt) (some (1, some 5))
      [JVal.num 1, JVal.num 2, JVal.num 3] JVal.null (fun x => x) rfl
      (by
        intro x hx
        simp only [List.mem_cons, List.not_mem_nil, or_false] at hx
        rcases hx with rfl | rfl | rfl
        all_goals rfl)
  · rw [c7_isArray_isHash.2.2.2.2.2 (Chain.new.isInt) numItemsChainExample 1 (some 5)
      (JVal.arr []) JVal.null rfl]
    exact c7_isArray_isHash.2.1 (Chain.new.isInt) 1 (some 5) [] JVal.null
      (Or.inl (by decide))
  · exact (c7_isArray_isHash.2.2.2.2.1 (Chain.new.isString) (Chain.new.isString) none
      [] "a" (JVal.num 1) [] JVal.null "Not a string" rfl
      (fun p hp => absurd hp (List.not_mem_nil p))).2 (JVal.str "a") rfl rfl
  · exact c7_isArray_isHash.1 (Chain.new.isInt) none (JVal.str "nope") JVal.null
      (by decide)

theorem skipWs_append_ws (ws cs : List Char)
    (h : ∀ c ∈ ws, isJsonWs c = true) : skipWs (ws ++ cs) = skipWs cs := by
  induction ws with
  | nil => rfl
  | cons c rest ih =>
    have hc := h c (List.mem_cons_self c rest)
    rw [List.cons_append]
    simp only [skipWs, hc, if_true]
    exact ih (fun c2 h2 => h c2 (List.mem_cons_of_mem c h2))

theorem skipWs_cons_not (c : Char) (cs : List Char) (h : isJsonWs c = false) :
    skipWs (c :: cs) = c :: cs := by
  simp [skipWs, h]

theorem parseJVal_ws_lead (fuel : Nat) (ws cs : List Char)
    (h : ∀ c ∈ ws, isJsonWs c = true) :
    parseJVal fuel (ws ++ cs) = parseJVal fuel cs := by
  cases fuel with
  | zero => rfl
  | succ f =>
    conv_lhs => rw [parseJVal.eq_def]
    conv_rhs => rw [parseJVal.eq_def]
    dsimp only
    rw [skipWs_append_ws ws cs h]

theorem decDigitChar_isDigit (k : Nat) (h : k < 10) : (decDigitChar k).isDigit = true := by
  interval_cases k <;> decide

theorem decDigitChar_toNat (k : Nat) (h : k < 10) : (decDigitChar k).toNat = 48 + k := by
  interval_cases k <;> decide

theorem natToDigitsGo_acc (n : Nat) : ∀ (fuel : Nat) (acc : List Char), n < fuel →
    natToDigitsGo fuel n acc = natToDigits n ++ acc := by
  induction n using Nat.strong_induction_on with
  | _ n ih =>
    intro fuel acc hf
    match fuel, hf with
    | f + 1, _ =>
      by_cases h10 : n < 10
      · simp only [natToDigitsGo, if_pos h10, natToDigits]
        rfl
      · have hdiv : n / 10 < n := by omega
        simp only [natToDigitsGo, if_neg h10, natToDigits]
        rw [ih (n/10) hdiv f (decDigitChar (n % 10) :: acc) (by omega),
          ih (n/10) hdiv n (decDigitChar (n % 10) :: []) (by omega)]
        simp

theorem natToDigits_unfold (n : Nat) :
    natToDigits n = if n < 10 then [decDigitChar (n % 10)]
      else natToDigits (n / 10) ++ [decDigitChar (n % 10)] := by
  by_cases h10 : n < 10
  · rw [if_pos h10]
    rw [natToDigits]
    simp only [natToDigitsGo, if_pos h10]
  · rw [if_neg h10]
    rw [natToDigits]
    simp only [natToDigitsGo, if_neg h10]
    exact natToDigitsGo_acc (n/10) n [decDigitChar (n % 10)] (by omega)

theorem natToDigits_all (n : Nat) : ∀ c ∈ natToDigits n, ∃ k, k < 10 ∧ c = decDigitChar k := by
  induction n using Nat.strong_induction_on with
  | _ n ih =>
    intro c hc
    rw [natToDigits_unfold] at hc
    by_cases h10 : n < 10
    · rw [if_pos h10] at hc
      simp only [List.mem_singleton] at hc
      exact ⟨n % 10, by omega, hc⟩
    · rw [if_neg h10] at hc
      rcases List.mem_append.mp hc with h1 | h2
      · exact ih (n/10) (by omega) c h1
      · simp only [List.mem_singleton] at h2
        exact ⟨n % 10, by omega, h2⟩

theorem natToDigits_ne_nil (n : Nat) : natToDigits n ≠ [] := by
  rw [natToDigits_unfold]
  by_cases h10 : n < 10
  · rw [if_pos h10]
    exact fun h => List.noConfusion h
  · rw [if_neg h10]
    simp

theorem parseDigits_append_digits : ∀ (ds : List Char), (∀ c ∈ ds, c.isDigit = true) →
    ∀ (a : Nat) (rest : List Char), parseDigits a (ds ++ rest) =
      parseDigits (ds.foldl (fun x c => x * 10 + (c.toNat - 48)) a) rest := by
  intro ds
  induction ds with
  | nil => intro _ a rest; rfl
  | cons c t ih =>
    intro h a rest
    rw [List.cons_append]
    simp only [parseDigits, h c (List.mem_cons_self c t), if_true, List.foldl_cons]
    exact ih (fun c2 h2 => h c2 (List.mem_cons_of_mem c h2)) _ rest

theorem parseDigits_stop (a : Nat) (rest : List Char)
    (h : ∀ c, rest.head? = some c → c.isDigit = false) : parseDigits a rest = (a, rest) := by
  cases rest with
  | nil => rfl
  | cons c t => simp [parseDigits, h c rfl]

theorem fold0_natToDigits : ∀ n : Nat,
    (natToDigits n).foldl (fun x c => x * 10 + (c.toNat - 48)) 0 = n := by
  intro n
  induction n using Nat.strong_induction_on with
  | _ n ih =>
    rw [natToDigits_unfold]
    by_cases h10 : n < 10
    · rw [if_pos h10]
      simp only [List.foldl_cons, List.foldl_nil]
      rw [decDigitChar_toNat (n % 10) (by omega)]
      omega
    · rw [if_neg h10]
      rw [List.foldl_append]
      rw [ih (n/10) (by omega)]
      simp only [List.foldl_cons, List.foldl_nil]
      rw [decDigitChar_toNat (n % 10) (by omega)]
      omega

theorem natToDigits_isDigit (n : Nat) : ∀ c ∈ natToDigits n, c.isDigit = true := by
  intro c hc
  obtain ⟨k, hk, rfl⟩ := natToDigits_all n c hc
  exact decDigitChar_isDigit k hk

theorem parseDigits_natToDigits (n : Nat) (rest : List Char)
    (h : ∀ c, rest.head? = some c → c.isDigit = false) :
    parseDigits 0 (natToDigits n ++ rest) = (n, rest) := by
  rw [parseDigits_append_digits _ (natToDigits_isDigit n) 0 rest, fold0_natToDigits,
    parseDigits_stop _ _ h]

theorem parseNumCore_natToDigits (n : Nat) (rest : List Char) (hg : numGuard rest) :
    parseNumCore (natToDigits n ++ rest) = some (n, rest) := by
  rw [parseNumCore, parseDigits_natToDigits n rest (fun c hc => (hg c hc).1)]
  cases rest with
  | nil => rfl
  | cons c t =>
    obtain ⟨h1, h2, h3, h4⟩ := hg c rfl
    dsimp only
    split
    · rename_i heq
      exact absurd (List.head_eq_of_cons_eq heq) h2
    · rename_i heq
      exact absurd (List.head_eq_of_cons_eq heq) h3
    · rename_i heq
      exact absurd (List.head_eq_of_cons_eq heq) h4
    · rfl

theorem decDigitChar_not_ws (k : Nat) (h : k < 10) : isJsonWs (decDigitChar k) = false := by
  interval_cases k <;> decide

theorem hexVal_hexDigitChar (k : Nat) (h : k < 16) : hexVal (hexDigitChar k) = some k := by
  interval_cases k <;> decide

theorem parseJVal_digits_succ (f m : Nat) (rest : List Char) (hg : numGuard rest) :
    parseJVal (f + 1) (natToDigits m ++ rest) = some (.num (Int.ofNat m), rest) := by
  rcases hne : natToDigits m with _ | ⟨c, ds⟩
  · exact absurd hne (natToDigits_ne_nil m)
  · obtain ⟨k, hk, hck⟩ := natToDigits_all m c (hne ▸ List.mem_cons_self c ds)
    subst hck
    conv_lhs => rw [parseJVal.eq_def]
    dsimp only
    rw [List.cons_append, skipWs_cons_not _ _ (decDigitChar_not_ws k hk)]
    dsimp only
    rw [if_pos (decDigitChar_isDigit k hk), ← List.cons_append, ← hne,
      parseNumCore_natToDigits m rest hg]

theorem parseJVal_neg_digits_succ (f m : Nat) (rest : List Char) (hg : numGuard rest) :
    parseJVal (f + 1) ('-' :: (natToDigits m ++ rest)) =
      some (.num (-(Int.ofNat m)), rest) := by
  rcases hne : natToDigits m with _ | ⟨c, ds⟩
  · exact absurd hne (natToDigits_ne_nil m)
  · obtain ⟨k, hk, hck⟩ := natToDigits_all m c (hne ▸ List.mem_cons_self c ds)
    subst hck
    conv_lhs => rw [parseJVal.eq_def]
    dsimp only
    rw [skipWs_cons_not '-' _ (by decide)]
    dsimp only
    rw [if_neg (by decide), if_pos rfl, List.cons_append]
    dsimp only
    rw [if_pos (decDigitChar_isDigit k hk), ← List.cons_append, ← hne,
      parseNumCore_natToDigits m rest hg]

theorem parsesTo_null : ParsesTo ("null".data) .null := by
  intro fuel rest hf hg
  match fuel, hf with
  | f + 1, _ => rfl

theorem parsesTo_true : ParsesTo ("true".data) (.bool true) := by
  intro fuel rest hf hg
  match fuel, hf with
  | f + 1, _ => rfl

theorem parsesTo_false : ParsesTo ("false".data) (.bool false) := by
  intro fuel rest hf hg
  match fuel, hf with
  | f + 1, _ => rfl

theorem parsesTo_num (n : Int) : ParsesTo ((intToString n).data) (.num n) := by
  intro fuel rest hf hg
  match fuel, hf with
  | f + 1, _ =>
    by_cases hneg : n < 0
    · rw [show (intToString n).data = '-' :: natToDigits n.natAbs from by
        rw [intToString, if_pos hneg]]
      rw [List.cons_append, parseJVal_neg_digits_succ f n.natAbs rest hg,
        show -(Int.ofNat n.natAbs) = n from by rw [Int.ofNat_eq_natCast]; omega]
    · rw [show (intToString n).data = natToDigits n.natAbs from by
        rw [intToString, if_neg hneg, natToString]]
      rw [parseJVal_digits_succ f n.natAbs rest hg,
        show Int.ofNat n.natAbs = n from by rw [Int.ofNat_eq_natCast]; omega]

set_option maxHeartbeats 1000000 in
theorem psb_close (acc rest : List Char) :
    parseStringBody acc ('"' :: rest) = some (String.mk acc.reverse, rest) := by
  rw [parseStringBody.eq_def]; simp

set_option maxHeartbeats 1000000 in
theorem psb_esc_quote (acc r : List Char) :
    parseStringBody acc ('\\' :: '"' :: r) = parseStringBody ('"' :: acc) r := by
  rw [parseStringBody.eq_def]; simp

set_option maxHeartbeats 1000000 in
theorem psb_esc_back (acc r : List Char) :
    parseStringBody acc ('\\' :: '\\' :: r) = parseStringBody ('\\' :: acc) r := by
  rw [parseStringBody.eq_def]; simp

set_option maxHeartbeats 1000000 in
theorem psb_esc_b (acc r : List Char) :
    parseStringBody acc ('\\' :: 'b' :: r) = parseStringBody (Char.ofNat 8 :: acc) r := by
  rw [parseStringBody.eq_def]; simp

set_option maxHeartbeats 1000000 in
theorem psb_esc_f (acc r : List Char) :
    parseStringBody acc ('\\' :: 'f' :: r) = parseStringBody (Char.ofNat 12 :: acc) r := by
  rw [parseStringBody.eq_def]; simp

set_option maxHeartbeats 1000000 in
theorem psb_esc_n (acc r : List Char) :
    parseStringBody acc ('\\' :: 'n' :: r) = parseStringBody ('\n' :: acc) r := by
  rw [parseStringBody.eq_def]; simp

set_option maxHeartbeats 1000000 in
theorem psb_esc_r (acc r : List Char) :
    parseStringBody acc ('\\' :: 'r' :: r) = parseStringBody ('\r' :: acc) r := by
  rw [parseStringBody.eq_def]; simp

set_option maxHeartbeats 1000000 in
theorem psb_esc_t (acc r : List Char) :
    parseStringBody acc ('\\' :: 't' :: r) = parseStringBody ('\t' :: acc) r := by
  rw [parseStringBody.eq_def]; simp

set_option maxHeartbeats 1000000 in
theorem psb_esc_u (acc r : List Char) (k1 k2 k3 k4 : Nat)
    (h1 : k1 < 16) (h2 : k2 < 16) (h3 : k3 < 16) (h4 : k4 < 16)
    (hn : k1 * 4096 + k2 * 256 + k3 * 16 + k4 < 55296) :
    parseStringBody acc ('\\' :: 'u' :: hexDigitChar k1 :: hexDigitChar k2 ::
        hexDigitChar k3 :: hexDigitChar k4 :: r) =
      parseStringBody (Char.ofNat (k1 * 4096 + k2 * 256 + k3 * 16 + k4) :: acc) r := by
  rw [parseStringBody.eq_def]
  simp [hexVal_hexDigitChar k1 h1, hexVal_hexDigitChar k2 h2,
    hexVal_hexDigitChar k3 h3, hexVal_hexDigitChar k4 h4, hn]

set_option maxHeartbeats 1000000 in
theorem psb_plain (acc rest : List Char) (c : Char)
    (h1 : c ≠ '"') (h2 : c ≠ '\\') (h3 : 32 ≤ c.toNat) :
    parseStringBody acc (c :: rest) = parseStringBody (c :: acc) rest := by
  rw [parseStringBody.eq_def]
  simp [h1, h2, Nat.not_lt.mpr h3]

theorem parseStringBody_escape : ∀ (cs : List Char) (acc rest : List Char),
    parseStringBody acc ((cs.map escapeChar).flatten ++ '"' :: rest) =
      some (String.mk (acc.reverse ++ cs), rest) := by
  intro cs
  induction cs with
  | nil =>
    intro acc rest
    rw [List.map_nil, List.flatten_nil, List.nil_append, psb_close]
    simp
  | cons c t ih =>
    intro acc rest
    rw [List.map_cons, List.flatten_cons, List.append_assoc]
    by_cases h1 : c = '"'
    · subst h1
      rw [show escapeChar '"' = ['\\', '"'] from rfl]
      simp only [List.cons_append, List.nil_append]
      rw [psb_esc_quote, ih ('"' :: acc) rest]
      simp
    · by_cases h2 : c = '\\'
      · subst h2
        rw [show escapeChar '\\' = ['\\', '\\'] from rfl]
        simp only [List.cons_append, List.nil_append]
        rw [psb_esc_back, ih ('\\' :: acc) rest]
        simp
      · by_cases h3 : c.toNat = 8
        · have hc : c = Char.ofNat 8 := by rw [← h3, Char.ofNat_toNat]
          subst hc
          rw [show escapeChar (Char.ofNat 8) = ['\\', 'b'] from rfl]
          simp only [List.cons_append, List.nil_append]
          rw [psb_esc_b, ih (Char.ofNat 8 :: acc) rest]
          simp
        · by_cases h4 : c = '\t'
          · subst h4
            rw [show escapeChar '\t' = ['\\', 't'] from rfl]
            simp only [List.cons_append, List.nil_append]
            rw [psb_esc_t, ih ('\t' :: acc) rest]
            simp
          · by_cases h5 : c = '\n'
            · subst h5
              rw [show escapeChar '\n' = ['\\', 'n'] from rfl]
              simp only [List.cons_append, List.nil_append]
              rw [psb_esc_n, ih ('\n' :: acc) rest]
              simp
            · by_cases h6 : c.toNat = 12
              · have hc : c = Char.ofNat 12 := by rw [← h6, Char.ofNat_toNat]
                subst hc
                rw [show escapeChar (Char.ofNat 12) = ['\\', 'f'] from rfl]
                simp only [List.cons_append, List.nil_append]
                rw [psb_esc_f, ih (Char.ofNat 12 :: acc) rest]
                simp
              · by_cases h7 : c = '\r'
                · subst h7
                  rw [show escapeChar '\r' = ['\\', 'r'] from rfl]
                  simp only [List.cons_append, List.nil_append]
                  rw [psb_esc_r, ih ('\r' :: acc) rest]
                  simp
                · by_cases h8 : c.toNat < 32
                  · rw [show escapeChar c = '\\' :: 'u' :: hex4 c.toNat from by
                      rw [escapeChar, if_neg h1, if_neg h2, if_neg h3, if_neg h4, if_neg h5,
                        if_neg h6, if_neg h7, if_pos h8]]
                    rw [hex4]
                    simp only [List.cons_append, List.nil_append]
                    rw [psb_esc_u _ _ _ _ _ _ (by omega) (by omega) (by omega) (by omega)
                      (by omega)]
                    rw [show c.toNat / 4096 % 16 * 4096 + c.toNat / 256 % 16 * 256 +
                        c.toNat / 16 % 16 * 16 + c.toNat % 16 = c.toNat from by omega]
                    rw [Char.ofNat_toNat, ih (c :: acc) rest]
                    simp
                  · rw [show escapeChar c = [c] from by
                      rw [escapeChar, if_neg h1, if_neg h2, if_neg h3, if_neg h4, if_neg h5,
                        if_neg h6, if_neg h7, if_neg h8]]
                    rw [List.singleton_append]
                    rw [psb_plain _ _ _ h1 h2 (by omega), ih (c :: acc) rest]
                    simp

theorem parseJVal_quote (f : Nat) (cs : List Char) :
    parseJVal (f + 1) ('"' :: cs) =
      (parseStringBody [] cs).map (fun p => (JVal.str p.1, p.2)) := rfl

theorem parsesTo_str (s : String) : ParsesTo (quoteChars s) (.str s) := by
  intro fuel rest hf hg
  match fuel, hf with
  | f + 1, _ =>
    rw [show quoteChars s ++ rest =
        '"' :: ((s.data.map escapeChar).flatten ++ '"' :: rest) from by
      simp [quoteChars]]
    rw [parseJVal_quote, parseStringBody_escape s.data [] rest]
    simp

theorem parsesTo_empty_arr : ParsesTo ("[]".data) (.arr []) := by
  intro fuel rest hf hg
  match fuel, hf with
  | f + 1, _ => rfl

theorem parsesTo_empty_obj : ParsesTo ("\x7b\x7d".data) (.obj []) := by
  intro fuel rest hf hg
  match fuel, hf with
  | f + 1, _ => rfl

theorem serialize_none_iff (opts : SwizOpts) (indent : List Char) (key : String)
    (v : JVal) :
    serializeProperty opts indent key v = none ↔ stripProperty opts key v = none := by
  rcases v with _ | _ | b | n | s | elems | kvs <;>
    rw [serializeProperty.eq_def, stripProperty.eq_def] <;>
    by_cases hp : jsonPruned opts key (JVal.null) <;>
    first
      | (rcases b with _ | _ <;> simp_all)
      | simp_all

theorem numGuard_cons (c : Char) (h : c.isDigit = false ∧ c ≠ '.' ∧ c ≠ 'e' ∧ c ≠ 'E')
    (cs : List Char) : numGuard (c :: cs) := by
  intro c2 hc2
  simp only [List.head?] at hc2
  cases hc2
  exact h

theorem wsAll_cons (c : Char) (hc : isJsonWs c = true) (cs : List Char)
    (h : ∀ c2 ∈ cs, isJsonWs c2 = true) : ∀ c2 ∈ c :: cs, isJsonWs c2 = true := by
  intro c2 hc2
  rcases List.mem_cons.mp hc2 with rfl | h2
  · exact hc
  · exact h c2 h2

theorem parseElems_chain :
    ∀ (ps : List (List Char)) (vs : List JVal),
      List.Forall₂ (fun p w => headOk p ∧ ParsesTo p w) ps vs →
      ∀ (fuel : Nat) (wsp indentNext indent rest : List Char),
        (∀ c ∈ wsp, isJsonWs c = true) →
        (∀ c ∈ indentNext, isJsonWs c = true) →
        (∀ c ∈ indent, isJsonWs c = true) →
        (wsp ++ joinParts indentNext ps ++ '\n' :: indent ++ [']']).length < fuel →
        ps ≠ [] →
        parseElems fuel (wsp ++ joinParts indentNext ps ++ '\n' :: indent ++ ']' :: rest) =
          some (vs, rest) := by
  intro ps vs hrel
  induction hrel with
  | nil => intro _ _ _ _ _ _ _ _ _ hne; exact absurd rfl hne
  | @cons p w ps2 vs2 hpw hrest ih =>
    intro fuel wsp indentNext indent rest hwsp hinext hind hf _
    cases fuel with
    | zero => simp at hf
    | succ g =>
      obtain ⟨c, t, hpct, hcw, hcb, hcc⟩ := hpw.1
      rcases ps2 with _ | ⟨p2, ps3⟩
      · rw [show joinParts indentNext [p] = p from rfl]
        rw [show joinParts indentNext [p] = p from rfl] at hf
        cases hrest
        have hcs : wsp ++ p ++ '\n' :: indent ++ ']' :: rest =
            wsp ++ (p ++ '\n' :: (indent ++ ']' :: rest)) := by simp
        rw [hcs]
        rw [show parseElems (g + 1) (wsp ++ (p ++ '\n' :: (indent ++ ']' :: rest))) =
          (match parseJVal g (wsp ++ (p ++ '\n' :: (indent ++ ']' :: rest))) with
           | none => none
           | some (v, rest2) =>
             match skipWs rest2 with
             | ',' :: r => (parseElems g r).map (fun q => (v :: q.1, q.2))
             | ']' :: r => some ([v], r)
             | _ => none) from rfl]
        rw [parseJVal_ws_lead g wsp _ hwsp]
        rw [hpw.2 g ('\n' :: (indent ++ ']' :: rest))
          (by simp at hf ⊢; omega)
          (numGuard_cons '\n' (by decide) _)]
        dsimp only
        rw [show ('\n' :: (indent ++ ']' :: rest)) = ('\n' :: indent) ++ (']' :: rest) from by
          simp]
        rw [skipWs_append_ws ('\n' :: indent) (']' :: rest)
          (wsAll_cons '\n' (by decide) indent hind)]
        rw [skipWs_cons_not ']' rest (by decide)]
        rfl
      · rw [show joinParts indentNext (p :: p2 :: ps3) =
          p ++ ',' :: '\n' :: indentNext ++ joinParts indentNext (p2 :: ps3) from rfl]
        rw [show joinParts indentNext (p :: p2 :: ps3) =
          p ++ ',' :: '\n' :: indentNext ++ joinParts indentNext (p2 :: ps3) from rfl] at hf
        have hcs : wsp ++ (p ++ ',' :: '\n' :: indentNext ++ joinParts indentNext (p2 :: ps3)) ++
            '\n' :: indent ++ ']' :: rest =
            wsp ++ (p ++ ',' :: ('\n' :: indentNext ++
              (joinParts indentNext (p2 :: ps3) ++ '\n' :: indent ++ ']' :: rest))) := by
          simp
        rw [hcs]
        rw [show parseElems (g + 1) (wsp ++ (p ++ ',' :: ('\n' :: indentNext ++
            (joinParts indentNext (p2 :: ps3) ++ '\n' :: indent ++ ']' :: rest)))) =
          (match parseJVal g (wsp ++ (p ++ ',' :: ('\n' :: indentNext ++
              (joinParts indentNext (p2 :: ps3) ++ '\n' :: indent ++ ']' :: rest)))) with
           | none => none
           | some (v, rest2) =>
             match skipWs rest2 with
             | ',' :: r => (parseElems g r).map (fun q => (v :: q.1, q.2))
             | ']' :: r => some ([v], r)
             | _ => none) from rfl]
        rw [parseJVal_ws_lead g wsp _ hwsp]
        rw [hpw.2 g (',' :: ('\n' :: indentNext ++
            (joinParts indentNext (p2 :: ps3) ++ '\n' :: indent ++ ']' :: rest)))
          (by simp at hf ⊢; omega)
          (numGuard_cons ',' (by decide) _)]
        dsimp only
        rw [skipWs_cons_not ',' _ (by decide)]
        show (parseElems g ('\n' :: indentNext ++ (joinParts indentNext (p2 :: ps3) ++
            '\n' :: indent ++ ']' :: rest))).map (fun q => (w :: q.1, q.2)) =
          some (w :: vs2, rest)
        rw [show '\n' :: indentNext ++
            (joinParts indentNext (p2 :: ps3) ++ '\n' :: indent ++ ']' :: rest) =
          ('\n' :: indentNext) ++ joinParts indentNext (p2 :: ps3) ++
            '\n' :: indent ++ ']' :: rest from by simp]
        rw [ih g ('\n' :: indentNext) indentNext indent rest
          (wsAll_cons '\n' (by decide) indentNext hinext)
          hinext hind
          (by subst hpct; simp at hf ⊢; omega)
          (by simp)]
        rfl

theorem parseMembers_succ (g : Nat) (cs : List Char) :
    parseMembers (g + 1) cs =
      match skipWs cs with
      | '"' :: rest =>
        (match parseStringBody [] rest with
         | none => none
         | some (k, r1) =>
           match skipWs r1 with
           | ':' :: r2 =>
             (match parseJVal g r2 with
              | none => none
              | some (v, r3) =>
                match skipWs r3 with
                | ',' :: r4 => (parseMembers g r4).map (fun p => ((k, v) :: p.1, p.2))
                | '\x7d' :: r4 => some ([(k, v)], r4)
                | _ => none)
           | _ => none)
      | _ => none := rfl

theorem parseMembers_chain :
    ∀ (ps : List (List Char)) (kvs : List (String × JVal)),
      List.Forall₂ (fun p kv =>
        ∃ s, p = quoteChars kv.1 ++ ':' :: ' ' :: s ∧ ParsesTo s kv.2) ps kvs →
      ∀ (fuel : Nat) (wsp indentNext indent rest : List Char),
        (∀ c ∈ wsp, isJsonWs c = true) →
        (∀ c ∈ indentNext, isJsonWs c = true) →
        (∀ c ∈ indent, isJsonWs c = true) →
        (wsp ++ joinParts indentNext ps ++ '\n' :: indent ++ ['\x7d']).length < fuel →
        ps ≠ [] →
        parseMembers fuel
            (wsp ++ joinParts indentNext ps ++ '\n' :: indent ++ '\x7d' :: rest) =
          some (kvs, rest) := by
  intro ps kvs hrel
  induction hrel with
  | nil => intro _ _ _ _ _ _ _ _ _ hne; exact absurd rfl hne
  | @cons p kv ps2 kvs2 hpw hrest ih =>
    intro fuel wsp indentNext indent rest hwsp hinext hind hf _
    cases fuel with
    | zero => simp at hf
    | succ g =>
      obtain ⟨s, hps, hsw⟩ := hpw
      rcases ps2 with _ | ⟨p2, ps3⟩
      · rw [show joinParts indentNext [p] = p from rfl]
        rw [show joinParts indentNext [p] = p from rfl] at hf
        cases hrest
        subst hps
        have hcs : wsp ++ (quoteChars kv.1 ++ ':' :: ' ' :: s) ++ '\n' :: indent ++
            '\x7d' :: rest =
            wsp ++ ('"' :: ((kv.1.data.map escapeChar).flatten ++ '"' ::
              (':' :: ' ' :: (s ++ '\n' :: (indent ++ '\x7d' :: rest))))) := by
          simp [quoteChars]
        rw [hcs, parseMembers_succ g]
        rw [skipWs_append_ws _ _ hwsp, skipWs_cons_not '"' _ (by decide)]
        show (match parseStringBody []
            ((kv.1.data.map escapeChar).flatten ++ '"' ::
              (':' :: ' ' :: (s ++ '\n' :: (indent ++ '\x7d' :: rest)))) with
          | none => none
          | some (k, r1) =>
            match skipWs r1 with
            | ':' :: r2 =>
              (match parseJVal g r2 with
               | none => none
               | some (v, r3) =>
                 match skipWs r3 with
                 | ',' :: r4 => (parseMembers g r4).map (fun p => ((k, v) :: p.1, p.2))
                 | '\x7d' :: r4 => some ([(k, v)], r4)
                 | _ => none)
            | _ => none) = some ([kv], rest)
        rw [parseStringBody_escape kv.1.data []
          (':' :: ' ' :: (s ++ '\n' :: (indent ++ '\x7d' :: rest)))]
        show (match parseJVal g (' ' :: (s ++ '\n' :: (indent ++ '\x7d' :: rest))) with
          | none => none
          | some (v, r3) =>
            match skipWs r3 with
            | ',' :: r4 =>
              (parseMembers g r4).map
                (fun p => ((String.mk ([].reverse ++ kv.1.data), v) :: p.1, p.2))
            | '\x7d' :: r4 => some ([(String.mk ([].reverse ++ kv.1.data), v)], r4)
            | _ => none) = some ([kv], rest)
        rw [show (' ' :: (s ++ '\n' :: (indent ++ '\x7d' :: rest))) =
          [' '] ++ (s ++ '\n' :: (indent ++ '\x7d' :: rest)) from rfl]
        rw [parseJVal_ws_lead g [' '] _ (by intro c hc; simp at hc; subst hc; rfl)]
        rw [hsw g ('\n' :: (indent ++ '\x7d' :: rest))
          (by simp [quoteChars] at hf ⊢; omega)
          (numGuard_cons '\n' (by decide) _)]
        show (match skipWs ('\n' :: (indent ++ '\x7d' :: rest)) with
          | ',' :: r4 =>
            (parseMembers g r4).map
              (fun p => ((String.mk ([].reverse ++ kv.1.data), kv.2) :: p.1, p.2))
          | '\x7d' :: r4 => some ([(String.mk ([].reverse ++ kv.1.data), kv.2)], r4)
          | _ => none) = some ([kv], rest)
        rw [show ('\n' :: (indent ++ '\x7d' :: rest)) =
          ('\n' :: indent) ++ ('\x7d' :: rest) from by simp]
        rw [skipWs_append_ws ('\n' :: indent) _ (wsAll_cons '\n' (by decide) indent hind),
          skipWs_cons_not '\x7d' _ (by decide)]
        rfl
      · rw [show joinParts indentNext (p :: p2 :: ps3) =
          p ++ ',' :: '\n' :: indentNext ++ joinParts indentNext (p2 :: ps3) from rfl]
        rw [show joinParts indentNext (p :: p2 :: ps3) =
          p ++ ',' :: '\n' :: indentNext ++ joinParts indentNext (p2 :: ps3) from rfl] at hf
        subst hps
        have hcs : wsp ++ ((quoteChars kv.1 ++ ':' :: ' ' :: s) ++ ',' :: '\n' :: indentNext ++
            joinParts indentNext (p2 :: ps3)) ++ '\n' :: indent ++ '\x7d' :: rest =
            wsp ++ ('"' :: ((kv.1.data.map escapeChar).flatten ++ '"' ::
              (':' :: ' ' :: (s ++ ',' :: ('\n' :: indentNext ++
                (joinParts indentNext (p2 :: ps3) ++ '\n' :: indent ++ '\x7d' :: rest)))))) := by
          simp [quoteChars]
        rw [hcs, parseMembers_succ g]
        rw [skipWs_append_ws _ _ hwsp, skipWs_cons_not '"' _ (by decide)]
        show (match parseStringBody []
            ((kv.1.data.map escapeChar).flatten ++ '"' ::
              (':' :: ' ' :: (s ++ ',' :: ('\n' :: indentNext ++
                (joinParts indentNext (p2 :: ps3) ++ '\n' :: indent ++ '\x7d' :: rest))))) with
          | none => none
          | some (k, r1) =>
            match skipWs r1 with
            | ':' :: r2 =>
              (match parseJVal g r2 with
               | none => none
               | some (v, r3) =>
                 match skipWs r3 with
                 | ',' :: r4 => (parseMembers g r4).map (fun p => ((k, v) :: p.1, p.2))
                 | '\x7d' :: r4 => some ([(k, v)], r4)
                 | _ => none)
            | _ => none) = some (kv :: kvs2, rest)
        rw [parseStringBody_escape kv.1.data []
          (':' :: ' ' :: (s ++ ',' :: ('\n' :: indentNext ++
            (joinParts indentNext (p2 :: ps3) ++ '\n' :: indent ++ '\x7d' :: rest))))]
        show (match parseJVal g (' ' :: (s ++ ',' :: ('\n' :: indentNext ++
            (joinParts indentNext (p2 :: ps3) ++ '\n' :: indent ++ '\x7d' :: rest)))) with
          | none => none
          | some (v, r3) =>
            match skipWs r3 with
            | ',' :: r4 =>
              (parseMembers g r4).map
                (fun p => ((String.mk ([].reverse ++ kv.1.data), v) :: p.1, p.2))
            | '\x7d' :: r4 => some ([(String.mk ([].reverse ++ kv.1.data), v)], r4)
            | _ => none) = some (kv :: kvs2, rest)
        rw [show (' ' :: (s ++ ',' :: ('\n' :: indentNext ++
            (joinParts indentNext (p2 :: ps3) ++ '\n' :: indent ++ '\x7d' :: rest)))) =
          [' '] ++ (s ++ ',' :: ('\n' :: indentNext ++
            (joinParts indentNext (p2 :: ps3) ++ '\n' :: indent ++ '\x7d' :: rest))) from rfl]
        rw [parseJVal_ws_lead g [' '] _ (by intro c hc; simp at hc; subst hc; rfl)]
        rw [hsw g (',' :: ('\n' :: indentNext ++
            (joinParts indentNext (p2 :: ps3) ++ '\n' :: indent ++ '\x7d' :: rest)))
          (by simp [quoteChars] at hf ⊢; omega)
          (numGuard_cons ',' (by decide) _)]
        show (match skipWs (',' :: ('\n' :: indentNext ++
            (joinParts indentNext (p2 :: ps3) ++ '\n' :: indent ++ '\x7d' :: rest))) with
          | ',' :: r4 =>
            (parseMembers g r4).map
              (fun p => ((String.mk ([].reverse ++ kv.1.data), kv.2) :: p.1, p.2))
          | '\x7d' :: r4 => some ([(String.mk ([].reverse ++ kv.1.data), kv.2)], r4)
          | _ => none) = some (kv :: kvs2, rest)
        rw [skipWs_cons_not ',' _ (by decide)]
        show (parseMembers g ('\n' :: indentNext ++
            (joinParts indentNext (p2 :: ps3) ++ '\n' :: indent ++ '\x7d' :: rest))).map
          (fun p => ((String.mk ([].reverse ++ kv.1.data), kv.2) :: p.1, p.2)) =
          some (kv :: kvs2, rest)
        rw [show '\n' :: indentNext ++
            (joinParts indentNext (p2 :: ps3) ++ '\n' :: indent ++ '\x7d' :: rest) =
          ('\n' :: indentNext) ++ joinParts indentNext (p2 :: ps3) ++
            '\n' :: indent ++ '\x7d' :: rest from by simp]
        rw [ih g ('\n' :: indentNext) indentNext indent rest
          (wsAll_cons '\n' (by decide) indentNext hinext)
          hinext hind
          (by simp [quoteChars] at hf ⊢; omega)
          (by simp)]
        rfl

theorem parseJVal_lbrack (f : Nat) (cs : List Char) :
    parseJVal (f + 1) ('[' :: cs) =
      (match skipWs cs with
       | ']' :: r => some (JVal.arr [], r)
       | _ => (parseElems f cs).map (fun p => (JVal.arr p.1, p.2))) := rfl

theorem parseJVal_lbrace (f : Nat) (cs : List Char) :
    parseJVal (f + 1) ('\x7b' :: cs) =
      (match skipWs cs with
       | '\x7d' :: r => some (JVal.obj [], r)
       | _ => (parseMembers f cs).map (fun p => (JVal.obj p.1, p.2))) := rfl

theorem parseElems_branch (f : Nat) (X : List Char) (c : Char) (R : List Char)
    (hX : skipWs X = c :: R) (hc : c ≠ ']') :
    parseJVal (f + 1) ('[' :: X) = (parseElems f X).map (fun p => (JVal.arr p.1, p.2)) := by
  rw [parseJVal_lbrack]
  split
  · next r heq =>
    rw [hX] at heq
    simp at heq
    exact absurd heq.1 hc
  · rfl

theorem parseMembers_branch (f : Nat) (X : List Char) (c : Char) (R : List Char)
    (hX : skipWs X = c :: R) (hc : c ≠ '\x7d') :
    parseJVal (f + 1) ('\x7b' :: X) =
      (parseMembers f X).map (fun p => (JVal.obj p.1, p.2)) := by
  rw [parseJVal_lbrace]
  split
  · next r heq =>
    rw [hX] at heq
    simp at heq
    exact absurd heq.1 hc
  · rfl

theorem joinParts_cons_ex (inx : List Char) (p : List Char) (ps : List (List Char)) :
    ∃ tl, joinParts inx (p :: ps) = p ++ tl := by
  rcases ps with _ | ⟨q, qs⟩
  · exact ⟨[], by simp [joinParts]⟩
  · exact ⟨',' :: '\n' :: inx ++ joinParts inx (q :: qs), by simp [joinParts]⟩

theorem decDigitChar_ne_brackets (k : Nat) (h : k < 10) :
    decDigitChar k ≠ ']' ∧ decDigitChar k ≠ '\x7d' := by
  interval_cases k <;> exact ⟨by decide, by decide⟩

theorem headOk_intToString (n : Int) : headOk (intToString n).data := by
  by_cases hneg : n < 0
  · rw [show (intToString n).data = '-' :: natToDigits n.natAbs from by
      rw [intToString, if_pos hneg]]
    exact ⟨'-', _, rfl, by decide, by decide, by decide⟩
  · rw [show (intToString n).data = natToDigits n.natAbs from by
      rw [intToString, if_neg hneg, natToString]]
    rcases hne : natToDigits n.natAbs with _ | ⟨c, t⟩
    · exact absurd hne (natToDigits_ne_nil n.natAbs)
    · obtain ⟨k, hk, hck⟩ := natToDigits_all n.natAbs c (hne ▸ List.mem_cons_self c t)
      subst hck
      exact ⟨_, _, rfl, decDigitChar_not_ws k hk,
        (decDigitChar_ne_brackets k hk).1, (decDigitChar_ne_brackets k hk).2⟩

theorem wsAll_append (xs ys : List Char) (hx : ∀ c ∈ xs, isJsonWs c = true)
    (hy : ∀ c ∈ ys, isJsonWs c = true) : ∀ c ∈ xs ++ ys, isJsonWs c = true := by
  intro c hc
  rcases List.mem_append.mp hc with h | h
  · exact hx c h
  · exact hy c h

theorem wsAll_gap : ∀ c ∈ jsonGap, isJsonWs c = true := by
  decide

theorem headOk_null : headOk ("null".data) :=
  ⟨'n', _, rfl, by decide, by decide, by decide⟩

theorem arrElems_forall2 (opts : SwizOpts) (indentNext : List Char)
    (elems : List JVal)
    (IH : ∀ x ∈ elems, ∀ (key : String) (txt : List Char),
      serializeProperty opts indentNext key x = some txt →
      ∃ w, stripProperty opts key x = some w ∧ headOk txt ∧ ParsesTo txt w) :
    ∀ i, List.Forall₂ (fun p w => headOk p ∧ ParsesTo p w)
      (serializeArrElems opts indentNext i elems) (stripArrElems opts i elems) := by
  induction elems with
  | nil => intro i; exact List.Forall₂.nil
  | cons x rest ihe =>
    intro i
    rw [show serializeArrElems opts indentNext i (x :: rest) =
      (match serializeProperty opts indentNext (natToString i) x with
       | none => "null".data
       | some s => s) :: serializeArrElems opts indentNext (i + 1) rest from rfl]
    rw [show stripArrElems opts i (x :: rest) =
      (match stripProperty opts (natToString i) x with
       | none => JVal.null
       | some v => v) :: stripArrElems opts (i + 1) rest from rfl]
    have ihr := ihe (fun y hy => IH y (List.mem_cons_of_mem x hy)) (i + 1)
    cases hsx : serializeProperty opts indentNext (natToString i) x with
    | none =>
      rw [(serialize_none_iff opts indentNext (natToString i) x).mp hsx]
      exact List.Forall₂.cons ⟨headOk_null, parsesTo_null⟩ ihr
    | some s =>
      obtain ⟨w, hw, hok, hpt⟩ := IH x (List.mem_cons_self x rest) (natToString i) s hsx
      rw [hw]
      exact List.Forall₂.cons ⟨hok, hpt⟩ ihr

theorem objMembers_forall2 (opts : SwizOpts) (indentNext : List Char)
    (kvs : List (String × JVal))
    (IH : ∀ kv ∈ kvs, ∀ (key : String) (txt : List Char),
      serializeProperty opts indentNext key (Prod.snd kv) = some txt →
      ∃ w, stripProperty opts key (Prod.snd kv) = some w ∧ headOk txt ∧ ParsesTo txt w) :
    List.Forall₂ (fun p kv =>
        ∃ s, p = quoteChars kv.1 ++ ':' :: ' ' :: s ∧ ParsesTo s kv.2)
      (serializeObjMembers opts indentNext kvs) (stripObjMembers opts kvs) := by
  induction kvs with
  | nil => exact List.Forall₂.nil
  | cons kv rest ihe =>
    rcases kv with ⟨k, x⟩
    rw [show serializeObjMembers opts indentNext ((k, x) :: rest) =
      (match serializeProperty opts indentNext k x with
       | none => serializeObjMembers opts indentNext rest
       | some s => (quoteChars k ++ ':' :: ' ' :: s) ::
           serializeObjMembers opts indentNext rest) from rfl]
    rw [show stripObjMembers opts ((k, x) :: rest) =
      (match stripProperty opts k x with
       | none => stripObjMembers opts rest
       | some v => (k, v) :: stripObjMembers opts rest) from rfl]
    have ihr := ihe (fun y hy => IH y (List.mem_cons_of_mem (k, x) hy))
    cases hsx : serializeProperty opts indentNext k x with
    | none =>
      rw [(serialize_none_iff opts indentNext k x).mp hsx]
      exact ihr
    | some s =>
      obtain ⟨w, hw, hok, hpt⟩ := IH (k, x) (List.mem_cons_self (k, x) rest) k s hsx
      rw [hw]
      exact List.Forall₂.cons ⟨s, rfl, hpt⟩ ihr

theorem serialize_roundTrip_aux :
    ∀ (n : Nat) (v : JVal), sizeOf v < n →
    ∀ (opts : SwizOpts) (indent : List Char) (key : String) (txt : List Char),
      (∀ c ∈ indent, isJsonWs c = true) →
      serializeProperty opts indent key v = some txt →
      ∃ w, stripProperty opts key v = some w ∧ headOk txt ∧ ParsesTo txt w := by
  intro n
  induction n using Nat.strong_induction_on with
  | _ n ih =>
    intro v hv opts indent key txt hind hser
    rw [serializeProperty.eq_def] at hser
    by_cases hp : jsonPruned opts key v = true
    · rw [if_pos hp] at hser
      cases hser
    · rw [if_neg hp] at hser
      rw [stripProperty.eq_def, if_neg hp]
      rcases v with _ | _ | b | m | st | elems | kvs
      · cases hser
        exact ⟨.null, rfl, headOk_null, parsesTo_null⟩
      · cases hser
      · rcases b with _ | _
        · cases hser
          exact ⟨.bool false, rfl, ⟨'f', _, rfl, by decide, by decide, by decide⟩,
            parsesTo_false⟩
        · cases hser
          exact ⟨.bool true, rfl, ⟨'t', _, rfl, by decide, by decide, by decide⟩,
            parsesTo_true⟩
      · cases hser
        exact ⟨.num m, rfl, headOk_intToString m, parsesTo_num m⟩
      · cases hser
        exact ⟨.str st, rfl,
          ⟨'"', (st.data.map escapeChar).flatten ++ ['"'], rfl, by decide, by decide,
            by decide⟩, parsesTo_str st⟩
      · have hinext : ∀ c ∈ indent ++ jsonGap, isJsonWs c = true :=
          wsAll_append _ _ hind wsAll_gap
        have F2 := arrElems_forall2 opts (indent ++ jsonGap) elems
          (fun x hx key2 txt2 hs2 =>
            ih (sizeOf (JVal.arr elems)) hv x
              (by have h1 := List.sizeOf_lt_of_mem hx; simp; omega)
              opts (indent ++ jsonGap) key2 txt2 hinext hs2) 0
        cases hser
        rcases hparts : serializeArrElems opts (indent ++ jsonGap) 0 elems with _ | ⟨p1, prest⟩
        · rcases elems with _ | ⟨e, es⟩
          · refine ⟨.arr [], rfl, ?_, ?_⟩
            · exact ⟨'[', [']'], by rfl, by decide, by decide, by decide⟩
            · exact parsesTo_empty_arr
          · rw [show serializeArrElems opts (indent ++ jsonGap) 0 (e :: es) =
              (match serializeProperty opts (indent ++ jsonGap) (natToString 0) e with
               | none => "null".data
               | some s => s) :: serializeArrElems opts (indent ++ jsonGap) 1 es
              from rfl] at hparts
            cases hparts
        · rw [hparts] at F2
          obtain ⟨w1, vs1, hr1, hrest1, hvs⟩ := List.forall₂_cons_left_iff.mp F2
          refine ⟨.arr (stripArrElems opts 0 elems), rfl, ?_, ?_⟩
          · have htxt : (if (p1 :: prest).isEmpty = true then "[]".data
                else '[' :: '\n' :: (indent ++ jsonGap) ++
                  joinParts (indent ++ jsonGap) (p1 :: prest) ++ '\n' :: indent ++ [']']) =
              '[' :: '\n' :: (indent ++ jsonGap) ++
                joinParts (indent ++ jsonGap) (p1 :: prest) ++ '\n' :: indent ++ [']'] := rfl
            rw [htxt]
            exact ⟨'[', _, rfl, by decide, by decide, by decide⟩
          · rw [hvs]
            intro fuel rest hf hg
            rw [show (if (p1 :: prest).isEmpty = true then "[]".data
                else '[' :: '\n' :: (indent ++ jsonGap) ++
                  joinParts (indent ++ jsonGap) (p1 :: prest) ++ '\n' :: indent ++ [']']) =
              '[' :: '\n' :: (indent ++ jsonGap) ++
                joinParts (indent ++ jsonGap) (p1 :: prest) ++ '\n' :: indent ++ [']']
              from rfl] at hf ⊢
            cases fuel with
            | zero => simp at hf
            | succ f =>
              have hcs : ('[' :: '\n' :: (indent ++ jsonGap) ++
                  joinParts (indent ++ jsonGap) (p1 :: prest) ++ '\n' :: indent ++ [']']) ++
                    rest =
                  '[' :: (('\n' :: (indent ++ jsonGap)) ++
                    joinParts (indent ++ jsonGap) (p1 :: prest) ++
                      '\n' :: indent ++ ']' :: rest) := by simp
              rw [hcs]
              obtain ⟨c, t, hp1ct, hcw, hcb, hcc⟩ := hr1.1
              obtain ⟨tl, htl⟩ := joinParts_cons_ex (indent ++ jsonGap) p1 prest
              have hskip : skipWs (('\n' :: (indent ++ jsonGap)) ++
                  joinParts (indent ++ jsonGap) (p1 :: prest) ++
                    '\n' :: indent ++ ']' :: rest) =
                  c :: (t ++ (tl ++ '\n' :: indent ++ ']' :: rest)) := by
                rw [show ('\n' :: (indent ++ jsonGap)) ++
                    joinParts (indent ++ jsonGap) (p1 :: prest) ++
                      '\n' :: indent ++ ']' :: rest =
                  ('\n' :: (indent ++ jsonGap)) ++
                    (joinParts (indent ++ jsonGap) (p1 :: prest) ++
                      ('\n' :: indent ++ ']' :: rest)) from by simp]
                rw [skipWs_append_ws _ _ (wsAll_cons '\n' (by decide) _ hinext)]
                rw [htl, hp1ct]
                rw [show ((c :: t) ++ tl) ++ ('\n' :: indent ++ ']' :: rest) =
                  c :: (t ++ (tl ++ '\n' :: indent ++ ']' :: rest)) from by simp]
                exact skipWs_cons_not c _ hcw
              rw [parseElems_branch f _ c _ hskip hcb]
              rw [parseElems_chain (p1 :: prest) (w1 :: vs1) (hvs ▸ F2) f
                ('\n' :: (indent ++ jsonGap)) (indent ++ jsonGap) indent rest
                (wsAll_cons '\n' (by decide) _ hinext) hinext hind
                (by simp at hf ⊢; omega) (by simp)]
              rfl
      · have hinext : ∀ c ∈ indent ++ jsonGap, isJsonWs c = true :=
          wsAll_append _ _ hind wsAll_gap
        have F2 := objMembers_forall2 opts (indent ++ jsonGap) kvs
          (fun kv hkv key2 txt2 hs2 =>
            ih (sizeOf (JVal.obj kvs)) hv kv.2
              (by have h1 := List.sizeOf_lt_of_mem hkv; cases kv; simp at h1 ⊢; omega)
              opts (indent ++ jsonGap) key2 txt2 hinext hs2)
        cases hser
        rcases hparts : serializeObjMembers opts (indent ++ jsonGap) kvs with _ | ⟨p1, prest⟩
        · rw [hparts] at F2
          have hvs := List.forall₂_nil_left_iff.mp F2
          refine ⟨.obj (stripObjMembers opts kvs), rfl, ?_, ?_⟩
          · exact ⟨'\x7b', ['\x7d'], by rfl, by decide, by decide, by decide⟩
          · rw [hvs]
            exact parsesTo_empty_obj
        · rw [hparts] at F2
          obtain ⟨kv1, kvs1, hr1, hrest1, hvs⟩ := List.forall₂_cons_left_iff.mp F2
          refine ⟨.obj (stripObjMembers opts kvs), rfl, ?_, ?_⟩
          · have htxt : (if (p1 :: prest).isEmpty = true then "\x7b\x7d".data
                else '\x7b' :: '\n' :: (indent ++ jsonGap) ++
                  joinParts (indent ++ jsonGap) (p1 :: prest) ++
                    '\n' :: indent ++ ['\x7d']) =
              '\x7b' :: '\n' :: (indent ++ jsonGap) ++
                joinParts (indent ++ jsonGap) (p1 :: prest) ++
                  '\n' :: indent ++ ['\x7d'] := rfl
            rw [htxt]
            exact ⟨'\x7b', _, rfl, by decide, by decide, by decide⟩
          · rw [hvs]
            intro fuel rest hf hg
            rw [show (if (p1 :: prest).isEmpty = true then "\x7b\x7d".data
                else '\x7b' :: '\n' :: (indent ++ jsonGap) ++
                  joinParts (indent ++ jsonGap) (p1 :: prest) ++
                    '\n' :: indent ++ ['\x7d']) =
              '\x7b' :: '\n' :: (indent ++ jsonGap) ++
                joinParts (indent ++ jsonGap) (p1 :: prest) ++
                  '\n' :: indent ++ ['\x7d']
              from rfl] at hf ⊢
            cases fuel with
            | zero => simp at hf
            | succ f =>
              have hcs : ('\x7b' :: '\n' :: (indent ++ jsonGap) ++
                  joinParts (indent ++ jsonGap) (p1 :: prest) ++
                    '\n' :: indent ++ ['\x7d']) ++ rest =
                  '\x7b' :: (('\n' :: (indent ++ jsonGap)) ++
                    joinParts (indent ++ jsonGap) (p1 :: prest) ++
                      '\n' :: indent ++ '\x7d' :: rest) := by simp
              rw [hcs]
              obtain ⟨s1, hps1, hsw1⟩ := hr1
              obtain ⟨tl, htl⟩ := joinParts_cons_ex (indent ++ jsonGap) p1 prest
              have hskip : skipWs (('\n' :: (indent ++ jsonGap)) ++
                  joinParts (indent ++ jsonGap) (p1 :: prest) ++
                    '\n' :: indent ++ '\x7d' :: rest) =
                  '"' :: (((kv1.1.data.map escapeChar).flatten ++ ['"'] ++
                    ':' :: ' ' :: s1) ++ (tl ++ '\n' :: indent ++ '\x7d' :: rest)) := by
                rw [show ('\n' :: (indent ++ jsonGap)) ++
                    joinParts (indent ++ jsonGap) (p1 :: prest) ++
                      '\n' :: indent ++ '\x7d' :: rest =
                  ('\n' :: (indent ++ jsonGap)) ++
                    (joinParts (indent ++ jsonGap) (p1 :: prest) ++
                      ('\n' :: indent ++ '\x7d' :: rest)) from by simp]
                rw [skipWs_append_ws _ _ (wsAll_cons '\n' (by decide) _ hinext)]
                rw [htl, hps1]
                rw [show ((quoteChars kv1.1 ++ ':' :: ' ' :: s1) ++ tl) ++
                    ('\n' :: indent ++ '\x7d' :: rest) =
                  '"' :: (((kv1.1.data.map escapeChar).flatten ++ ['"'] ++
                    ':' :: ' ' :: s1) ++ (tl ++ '\n' :: indent ++ '\x7d' :: rest))
                  from by simp [quoteChars]]
                exact skipWs_cons_not '"' _ (by decide)
              rw [parseMembers_branch f _ '"' _ hskip (by decide)]
              rw [parseMembers_chain (p1 :: prest) (kv1 :: kvs1) (hvs ▸ F2) f
                ('\n' :: (indent ++ jsonGap)) (indent ++ jsonGap) indent rest
                (wsAll_cons '\n' (by decide) _ hinext) hinext hind
                (by simp at hf ⊢; omega) (by simp)]
              rfl

theorem noUndefList_mem :
    ∀ (elems : List JVal), noUndefList elems = true → ∀ x ∈ elems, noUndef x = true := by
  intro elems
  induction elems with
  | nil => intro _ x hx; cases hx
  | cons e es ihe =>
    intro h x hx
    rw [show noUndefList (e :: es) = (noUndef e && noUndefList es) from rfl] at h
    rw [Bool.and_eq_true] at h
    rcases List.mem_cons.mp hx with rfl | hx2
    · exact h.1
    · exact ihe h.2 x hx2

theorem noUndefFields_mem :
    ∀ (kvs : List (String × JVal)), noUndefFields kvs = true →
      ∀ kv ∈ kvs, noUndef kv.2 = true := by
  intro kvs
  induction kvs with
  | nil => intro _ kv hkv; cases hkv
  | cons e es ihe =>
    intro h kv hkv
    rw [show noUndefFields (e :: es) = (noUndef e.2 && noUndefFields es) from rfl] at h
    rw [Bool.and_eq_true] at h
    rcases List.mem_cons.mp hkv with rfl | hkv2
    · exact h.1
    · exact ihe h.2 kv hkv2

theorem stripArrElems_id (elems : List JVal)
    (H : ∀ x ∈ elems, ∀ key, stripProperty ⟨false, false⟩ key x = some x) :
    ∀ i, stripArrElems ⟨false, false⟩ i elems = elems := by
  induction elems with
  | nil => intro i; rfl
  | cons x rest ihe =>
    intro i
    rw [show stripArrElems ⟨false, false⟩ i (x :: rest) =
      (match stripProperty ⟨false, false⟩ (natToString i) x with
       | none => JVal.null
       | some v => v) :: stripArrElems ⟨false, false⟩ (i + 1) rest from rfl]
    rw [H x (List.mem_cons_self x rest) (natToString i)]
    rw [ihe (fun y hy => H y (List.mem_cons_of_mem x hy)) (i + 1)]

theorem stripObjMembers_id (kvs : List (String × JVal))
    (H : ∀ kv ∈ kvs, ∀ key, stripProperty ⟨false, false⟩ key kv.2 = some kv.2) :
    stripObjMembers ⟨false, false⟩ kvs = kvs := by
  induction kvs with
  | nil => rfl
  | cons kv rest ihe =>
    rcases kv with ⟨k, x⟩
    rw [show stripObjMembers ⟨false, false⟩ ((k, x) :: rest) =
      (match stripProperty ⟨false, false⟩ k x with
       | none => stripObjMembers ⟨false, false⟩ rest
       | some v => (k, v) :: stripObjMembers ⟨false, false⟩ rest) from rfl]
    rw [H (k, x) (List.mem_cons_self (k, x) rest) k]
    rw [ihe (fun y hy => H y (List.mem_cons_of_mem (k, x) hy))]

theorem strip_id_aux :
    ∀ (n : Nat) (v : JVal), sizeOf v < n → noUndef v = true →
      ∀ key, stripProperty ⟨false, false⟩ key v = some v := by
  intro n
  induction n using Nat.strong_induction_on with
  | _ n ih =>
    intro v hv hnu key
    rw [stripProperty.eq_def, if_neg (by simp [jsonPruned])]
    rcases v with _ | _ | b | m | st | elems | kvs
    · rfl
    · rw [show noUndef JVal.undef = false from rfl] at hnu
      cases hnu
    · rfl
    · rfl
    · rfl
    · show some (JVal.arr (stripArrElems ⟨false, false⟩ 0 elems)) = some (JVal.arr elems)
      rw [stripArrElems_id elems
        (fun x hx => ih (sizeOf (JVal.arr elems)) hv x
          (by have h1 := List.sizeOf_lt_of_mem hx; simp; omega)
          (noUndefList_mem elems hnu x hx)) 0]
    · show some (JVal.obj (stripObjMembers ⟨false, false⟩ kvs)) = some (JVal.obj kvs)
      rw [stripObjMembers_id kvs
        (fun kv hkv => ih (sizeOf (JVal.obj kvs)) hv kv.2
          (by have h1 := List.sizeOf_lt_of_mem hkv; cases kv; simp at h1 ⊢; omega)
          (noUndefFields_mem kvs hnu kv hkv))]

/-- C4: for every built structure, parsing the JSON text produced by the
JSON serializer yields the structure the replacer left: the input with
null-stripped and serializerType-stripped members removed (a pruned array
slot reading back as `null`); with both stripping options off the parse
returns exactly the input for any structure free of `undefined`. -/
theorem c4_json_round_trip (opts : SwizOpts) (x : JVal) (s : String)
    (h : Swiz.serializeJson opts x = some s) :
    ∃ y, stripProperty opts "" x = some y ∧
      Swiz.deserializeJson s = Except.ok y ∧
      (opts.stripNulls = false → opts.stripSerializerType = false →
        noUndef x = true → y = x) := by
  obtain ⟨txt, hser, hs⟩ : ∃ txt, serializeProperty opts [] "" x = some txt ∧
      s = String.mk txt := by
    unfold Swiz.serializeJson at h
    cases hser : serializeProperty opts [] "" x with
    | none => rw [hser] at h; cases h
    | some t => rw [hser] at h; exact ⟨t, rfl, (Option.some.inj h).symm⟩
  obtain ⟨w, hw, hok, hpt⟩ := serialize_roundTrip_aux (sizeOf x + 1) x (by omega)
    opts [] "" txt (by intro c hc; cases hc) hser
  refine ⟨w, hw, ?_, ?_⟩
  · subst hs
    have hp := hpt (txt.length + 1) [] (by omega) (by intro c hc; cases hc)
    rw [List.append_nil] at hp
    unfold Swiz.deserializeJson jsonParse
    rw [show (String.mk txt).data = txt from rfl, hp]
    rfl
  · intro h1 h2 hnu
    have hid := strip_id_aux (sizeOf x + 1) x (by omega) hnu ""
    rcases opts with ⟨sn, st2⟩
    dsimp only at h1 h2
    subst h1
    subst h2
    rw [hid] at hw
    exact (Option.some.inj hw).symm

theorem c4_witness :
    Swiz.serializeJson ⟨false, false⟩
        (JVal.obj [("a", .num 1), ("b", .arr [.str "x", .null])]) =
      some "\x7b\n    \"a\": 1,\n    \"b\": [\n        \"x\",\n        null\n    ]\n\x7d" ∧
    ∃ y, stripProperty ⟨false, false⟩ ""
        (JVal.obj [("a", .num 1), ("b", .arr [.str "x", .null])]) = some y ∧
      Swiz.deserializeJson
          "\x7b\n    \"a\": 1,\n    \"b\": [\n        \"x\",\n        null\n    ]\n\x7d" =
        Except.ok y ∧
      ((⟨false, false⟩ : SwizOpts).stripNulls = false →
        (⟨false, false⟩ : SwizOpts).stripSerializerType = false →
        noUndef (JVal.obj [("a", .num 1), ("b", .arr [.str "x", .null])]) = true →
        y = JVal.obj [("a", .num 1), ("b", .arr [.str "x", .null])]) :=
  ⟨by rfl, c4_json_round_trip ⟨false, false⟩ _ _ (by rfl)⟩
